import Mathlib

/-!
# Verification of the OCRBridge hOCR core

Shallow embedding of `src/ocrbridge/core/utils/hocr.py`:
the word extractor, line-grouping engine, hOCR serializer and the
parser/validator pair, together with proofs of the spec's claims.

Modelling conventions:
* Python `float` values are embedded as `ℚ` (exact arithmetic).
* Python `int(x)` on a number is truncation toward zero (`truncQ`).
* Python `str` values are embedded as `List Char`.
* Python `list.sort(key=...)` is a stable sort; it is embedded as a
  stable insertion sort (`sortByKey`), which produces the same output
  as any other stable sort for the same key preorder.
-/

/-- Characters of a string literal. -/
def chars (s : String) : List Char := s.data

/-- Python `int()` applied to an exact rational: truncation toward zero. -/
def truncQ (q : ℚ) : ℤ := Int.tdiv q.num q.den

/-- One EasyOCR detection: a 4-point polygon (the source's
`[[x1,y1],[x2,y2],[x3,y3],[x4,y4]]` bbox format), recognized text and a
confidence score.  Embeds `EasyOCRResult` from `hocr.py`. -/
structure Detection where
  p1 : ℚ × ℚ
  p2 : ℚ × ℚ
  p3 : ℚ × ℚ
  p4 : ℚ × ℚ
  text : List Char
  confidence : ℚ
deriving DecidableEq, Repr

/-- Embeds the `WordData` dict of `hocr.py`. -/
structure Word where
  text : List Char
  confidence : ℚ
  bbox : ℤ × ℤ × ℤ × ℤ
  y_center : ℚ
  height : ℤ
  x_min : ℤ
deriving DecidableEq, Repr

/-- Python `min` of a list of rationals (never called on `[]` in the source). -/
def listMinQ : List ℚ → ℚ
  | [] => 0
  | x :: r => r.foldl min x

/-- Python `max` of a list of rationals (never called on `[]` in the source). -/
def listMaxQ : List ℚ → ℚ
  | [] => 0
  | x :: r => r.foldl max x

/-- Python `min` of a list of integers (never called on `[]` in the source). -/
def listMinZ : List ℤ → ℤ
  | [] => 0
  | x :: r => r.foldl min x

/-- Python `max` of a list of integers (never called on `[]` in the source). -/
def listMaxZ : List ℤ → ℤ
  | [] => 0
  | x :: r => r.foldl max x

/-- The word-extraction step of `_group_easyocr_words_into_lines`
(`hocr.py` lines 148-171): axis-aligned bbox from `int(min/max(...))`,
`y_center = (y_min + y_max) / 2`, `height = y_max - y_min`, `x_min`. -/
def toWord (d : Detection) : Word :=
  let x_coords : List ℚ := [d.p1.1, d.p2.1, d.p3.1, d.p4.1]
  let y_coords : List ℚ := [d.p1.2, d.p2.2, d.p3.2, d.p4.2]
  let x_min : ℤ := truncQ (listMinQ x_coords)
  let x_max : ℤ := truncQ (listMaxQ x_coords)
  let y_min : ℤ := truncQ (listMinQ y_coords)
  let y_max : ℤ := truncQ (listMaxQ y_coords)
  { text := d.text
    confidence := d.confidence
    bbox := (x_min, y_min, x_max, y_max)
    y_center := ((y_min + y_max : ℤ) : ℚ) / 2
    height := y_max - y_min
    x_min := x_min }

/-- The word list built by the first loop of
`_group_easyocr_words_into_lines`. -/
def wordsOf (ds : List Detection) : List Word := ds.map toWord

/-- Stable insertion: place `x` before the first element whose key is
not smaller, i.e. after earlier elements with equal keys. -/
def insertSorted {α β : Type} [LinearOrder β] (key : α → β) (x : α) :
    List α → List α
  | [] => [x]
  | y :: ys => if key y < key x then y :: insertSorted key x ys else x :: y :: ys

/-- Stable sort by a key, embedding Python's stable `list.sort(key=...)`:
a stable sort's output is determined by the key preorder, so this
insertion sort returns exactly what Python's mergesort returns. -/
def sortByKey {α β : Type} [LinearOrder β] (key : α → β) : List α → List α
  | [] => []
  | x :: xs => insertSorted key x (sortByKey key xs)

/-- The median word height of `hocr.py` lines 176-179: sort all heights
ascending and take the element at index `len // 2` (the list is never
empty on this code path, so the `getD` default is never used). -/
def medianHeight (ws : List Word) : ℤ :=
  (sortByKey id (ws.map Word.height)).getD (ws.length / 2) 0

/-- The sweep of `hocr.py` lines 188-204: group the `y_center`-sorted
words into lines, comparing each word against the anchor (the `y_center`
of the first word of the current line).  `current_line_words` is always
non-empty, so the final `if current_line_words:` guard always appends. -/
def sweepLines (th : ℚ) : ℚ → List Word → List Word → List (List Word)
  | _, cur, [] => [cur]
  | anchor, cur, w :: ws =>
    if |w.y_center - anchor| ≤ th then sweepLines th anchor (cur ++ [w]) ws
    else cur :: sweepLines th w.y_center [w] ws

/-- Embeds the `LineData` dict of `hocr.py`. -/
structure LineData where
  bbox : ℤ × ℤ × ℤ × ℤ
  words : List Word
deriving DecidableEq, Repr

/-- The per-line post-processing of `hocr.py` lines 208-220: sort the
line's words left-to-right by `x_min` and take the union bounding box. -/
def mkLineData (lws : List Word) : LineData :=
  let line_words := sortByKey Word.x_min lws
  { bbox := (listMinZ (line_words.map fun w => w.bbox.1),
             listMinZ (line_words.map fun w => w.bbox.2.1),
             listMaxZ (line_words.map fun w => w.bbox.2.2.1),
             listMaxZ (line_words.map fun w => w.bbox.2.2.2)),
    words := line_words }

/-- Embeds `_group_easyocr_words_into_lines` (`hocr.py` lines 131-222).
The source's second emptiness test (`if not words`) is subsumed by the
first, and `words` is non-empty exactly when the input is. -/
def group_easyocr_words_into_lines (ds : List Detection) : List LineData :=
  match ds with
  | [] => []
  | _ :: _ =>
    match sortByKey Word.y_center (wordsOf ds) with
    | [] => []
    | w0 :: rest =>
      (sweepLines ((medianHeight (wordsOf ds) : ℚ) * (1 / 2)) w0.y_center [w0] rest).map
        mkLineData

/-- The apostrophe character (codepoint 39). -/
def apostChar : Char := Char.ofNat 39

/-- The `&apos;` entity, as a character list. -/
def aposEntity : List Char := ['&', 'a', 'p', 'o', 's', ';']

/-- One `str.replace` pass with a single-character pattern: Python's
`s.replace(c, r)` replaces every occurrence of `c` by `r`, left to right,
in one pass over the already-built string. -/
def replaceChar (c : Char) (r : List Char) : List Char → List Char
  | [] => []
  | x :: xs => (if x = c then r else [x]) ++ replaceChar c r xs

/-- The XML escaping of `easyocr_to_hocr` (`hocr.py` lines 277-284):
five sequential `str.replace` calls, ampersand first. -/
def escape_xml (s : List Char) : List Char :=
  replaceChar apostChar aposEntity
    (replaceChar '"' (chars "&quot;")
      (replaceChar '>' (chars "&gt;")
        (replaceChar '<' (chars "&lt;")
          (replaceChar '&' (chars "&amp;") s))))

/-- Modelled from the spec: the XML entity decoding an XML parser applies
to text content when recovering the original word text.  (The decoding
side lives in Python's `xml` stdlib, outside this repository.) -/
def unescape : List Char → List Char
  | [] => []
  | '&' :: 'a' :: 'm' :: 'p' :: ';' :: r => '&' :: unescape r
  | '&' :: 'l' :: 't' :: ';' :: r => '<' :: unescape r
  | '&' :: 'g' :: 't' :: ';' :: r => '>' :: unescape r
  | '&' :: 'q' :: 'u' :: 'o' :: 't' :: ';' :: r => '"' :: unescape r
  | '&' :: 'a' :: 'p' :: 'o' :: 's' :: ';' :: r => apostChar :: unescape r
  | c :: r => c :: unescape r

/-- Decimal digits of a natural number, as Python's `str` renders it. -/
def natChars (n : Nat) : List Char :=
  if n = 0 then ['0'] else (Nat.digits 10 n).reverse.map Nat.digitChar

/-- Python's `str` of an integer: optional minus sign plus digits. -/
def intChars (z : ℤ) : List Char :=
  if z < 0 then '-' :: natChars z.natAbs else natChars z.toNat

/-- `int(confidence * 100)` of `hocr.py` line 274. -/
def conf_percent (confidence : ℚ) : ℤ := truncQ (confidence * 100)

/-- The fixed header of the serialized document plus the `ocr_page` div
(`hocr.py` lines 244-255). -/
def headerLines (image_width image_height : Nat) : List (List Char) :=
  [chars "<?xml version=\"1.0\" encoding=\"UTF-8\"?>",
   chars "<!DOCTYPE html PUBLIC \"-//W3C//DTD XHTML 1.0 Transitional//EN\" \"http://www.w3.org/TR/xhtml1/DTD/xhtml1-transitional.dtd\">",
   chars "<html xmlns=\"http://www.w3.org/1999/xhtml\" xml:lang=\"en\" lang=\"en\">",
   chars "<head>",
   chars " <meta http-equiv=\"content-type\" content=\"text/html; charset=utf-8\" />",
   chars " <meta name=\"ocr-system\" content=\"easyocr\" />",
   chars " <meta name=\"ocr-capabilities\" content=\"ocr_page ocr_carea ocr_par ocr_line ocrx_word\" />",
   chars "</head>",
   chars "<body>",
   chars "  <div class=\"ocr_page\" id=\"page_1\" title=\"bbox 0 0 " ++
     natChars image_width ++ [' '] ++ natChars image_height ++ chars "\">"]

/-- The closing lines of the document (`hocr.py` line 301). -/
def footerLines : List (List Char) :=
  [chars "  </div>", chars "</body>", chars "</html>"]

/-- The `ocr_line` opening element (`hocr.py` lines 266-269). -/
def lineLine (line_idx : Nat) (bbox : ℤ × ℤ × ℤ × ℤ) : List Char :=
  chars "    <span class=\"ocr_line\" id=\"line_1_" ++ natChars line_idx ++
  chars "\" title=\"bbox " ++ intChars bbox.1 ++ [' '] ++ intChars bbox.2.1 ++ [' '] ++
  intChars bbox.2.2.1 ++ [' '] ++ intChars bbox.2.2.2 ++ chars "\">"

/-- The `ocrx_word` element (`hocr.py` lines 286-293). -/
def wordLine (word_counter : Nat) (w : Word) : List Char :=
  chars "      <span class=\"ocrx_word\" id=\"word_1_" ++ natChars word_counter ++
  chars "\" title=\"bbox " ++ intChars w.bbox.1 ++ [' '] ++ intChars w.bbox.2.1 ++ [' '] ++
  intChars w.bbox.2.2.1 ++ [' '] ++ intChars w.bbox.2.2.2 ++ chars "; x_wconf " ++
  intChars (conf_percent w.confidence) ++ chars "\">" ++ escape_xml w.text ++ chars "</span>"

/-- The word elements of one line, with the page-global word counter
(`hocr.py` lines 272-295): the counter increments once per word and
never resets between lines. -/
def wordLinesList (word_counter : Nat) : List Word → List (List Char)
  | [] => []
  | w :: ws => wordLine word_counter w :: wordLinesList (word_counter + 1) ws

/-- The per-line blocks of the document body (`hocr.py` lines 261-298):
line element, its words, closing `</span>`. -/
def bodyLines : Nat → Nat → List LineData → List (List Char)
  | _, _, [] => []
  | line_idx, word_counter, l :: rest =>
    lineLine line_idx l.bbox ::
      (wordLinesList word_counter l.words ++
        (chars "    </span>" :: bodyLines (line_idx + 1) (word_counter + l.words.length) rest))

/-- Python's `"\n".join` on a list of lines. -/
def joinLines : List (List Char) → List Char
  | [] => []
  | [l] => l
  | l :: l2 :: rest => l ++ '\n' :: joinLines (l2 :: rest)

/-- Embeds `easyocr_to_hocr` (`hocr.py` lines 225-303): fixed header,
grouped lines with globally counted words, fixed footer, newline-joined. -/
def easyocr_to_hocr (ds : List Detection) (image_width image_height : Nat) : List Char :=
  joinLines (headerLines image_width image_height ++
    bodyLines 1 1 (group_easyocr_words_into_lines ds) ++ footerLines)

/-- Number of occurrences of the pattern `p` in a string: one count per
start position at which `p` is a prefix of the remaining suffix. -/
def countSub (p : List Char) : List Char → Nat
  | [] => 0
  | c :: r => (if p <+: (c :: r) then 1 else 0) + countSub p r

/-- Python's `p in s` substring test. -/
def hasSub (p s : List Char) : Bool := countSub p s != 0

/-- Scanner state of the simplified XML well-formedness model: in text,
or inside a tag accumulating the text between `<` and `>`. -/
inductive ScanMode where
  | text : ScanMode
  | tag : List Char → ScanMode
deriving DecidableEq, Repr

/-- Modelled from the spec: processing of one complete tag by the XML
parser (`xml.etree.ElementTree.fromstring`, Python stdlib, outside this
repository).  `buf` is the text between `<` and `>`: declarations and
processing instructions are skipped, `</name>` must match the innermost
open element, `<... />` is self-closing, and any other tag pushes its
name (the text before the first space or slash). -/
def closeTag (buf : List Char) (stk : List (List Char)) : Option (List (List Char)) :=
  match buf with
  | [] => none
  | c :: r =>
    if c = '?' ∨ c = '!' then some stk
    else if c = '/' then
      match stk with
      | [] => none
      | top :: rest => if r = top then some rest else none
    else if (c :: r).getLast? = some '/' then some stk
    else some ((c :: r).takeWhile (fun ch => ch != ' ' && ch != '/') :: stk)

/-- Modelled from the spec: a single left-to-right scan checking that
tags are properly nested — the structural core of `ET.fromstring`'s
well-formedness requirement, simplified to tag balancing. -/
def xmlScan : List Char → ScanMode → List (List Char) → Option (ScanMode × List (List Char))
  | [], m, stk => some (m, stk)
  | c :: r, ScanMode.text, stk =>
    if c = '<' then xmlScan r (ScanMode.tag []) stk else xmlScan r ScanMode.text stk
  | c :: r, ScanMode.tag buf, stk =>
    if c = '>' then
      match closeTag buf stk with
      | some stk2 => xmlScan r ScanMode.text stk2
      | none => none
    else xmlScan r (ScanMode.tag (buf ++ [c])) stk

/-- Modelled from the spec: `ET.fromstring` succeeds iff the document is
well-formed XML; simplified to the tag-balance scan above. -/
def xmlCheck (s : List Char) : Bool :=
  match xmlScan s ScanMode.text [] with
  | some (ScanMode.text, []) => true
  | _ => false

/-- Embeds the `HOCRInfo` named tuple of `hocr.py`. -/
structure HOCRInfo where
  page_count : Nat
  word_count : Nat
  has_bounding_boxes : Bool
deriving DecidableEq, Repr

/-- The attribute text that marks an `ocr_page` element. -/
def pageClassPat : List Char := chars "class=\"ocr_page\""

/-- The attribute text that marks an `ocrx_word` element. -/
def wordClassPat : List Char := chars "class=\"ocrx_word\""

/-- The literal `bbox` marker. -/
def bboxPat : List Char := chars "bbox"

/-- Modelled from the spec: the detail text of the underlying `expat`
parse failure (environment-specific in Python, opaque here). -/
def parseDetail : List Char := chars "syntax error"

/-- Embeds `parse_hocr` (`hocr.py` lines 28-68).  `ET.fromstring` (stdlib,
outside this repository) is modelled by `xmlCheck`; counting the elements
whose `class` attribute equals `ocr_page` / `ocrx_word` (the `findall`
queries, with their namespace fallback) is modelled by counting the
occurrences of the corresponding `class="..."` attribute text, which on
double-quote-attribute documents such as the serializer's output is the
same count; `has_bounding_boxes` is the source's literal substring test. -/
def parse_hocr (hocr_content : List Char) : Except (List Char) HOCRInfo :=
  if xmlCheck hocr_content then
    Except.ok { page_count := countSub pageClassPat hocr_content,
                word_count := countSub wordClassPat hocr_content,
                has_bounding_boxes := hasSub bboxPat hocr_content }
  else
    Except.error (chars "Failed to parse HOCR XML: " ++ parseDetail)

/-- Embeds `validate_hocr` (`hocr.py` lines 71-90): a parse failure is
re-raised as a validation error wrapping the parse message, then the
page-count and bounding-box checks run in order. -/
def validate_hocr (hocr_content : List Char) : Except (List Char) Unit :=
  match parse_hocr hocr_content with
  | Except.error e => Except.error (chars "HOCR parsing failed: " ++ e)
  | Except.ok info =>
    if info.page_count = 0 then
      Except.error (chars "HOCR must contain at least one ocr_page")
    else if info.has_bounding_boxes = false then
      Except.error (chars "HOCR must contain bounding box coordinates")
    else Except.ok ()

deriving instance DecidableEq for Except

/-- An axis-aligned rectangle detection used as concrete test input. -/
def mkDet (x0 y0 x1 y1 : ℚ) (t : List Char) (c : ℚ) : Detection :=
  ⟨(x0, y0), (x1, y0), (x1, y1), (x0, y1), t, c⟩

/-- Single-pass characterization of `escape_xml`: the image of one
character under the five sequential replacements. -/
def tok (c : Char) : List Char :=
  if c = '&' then chars "&amp;"
  else if c = '<' then chars "&lt;"
  else if c = '>' then chars "&gt;"
  else if c = '"' then chars "&quot;"
  else if c = apostChar then aposEntity
  else [c]

/-- `"\n".join` seen from the second line on: a newline before every
line.  `joinLines (l :: ls) = l ++ preJoin ls`. -/
def preJoin (ls : List (List Char)) : List Char :=
  (ls.map (fun l => '\n' :: l)).flatten

/-- `xmlScan` consumes `t` in text mode, turning stack `s` into `s'`,
whatever follows. -/
def ScansTo (t : List Char) (s s' : List (List Char)) : Prop :=
  ∀ r, xmlScan (t ++ r) ScanMode.text s = xmlScan r ScanMode.text s'

/-- Four detections whose words have heights `1, 2, 3, 4`. -/
def detsEvenHeights : List Detection :=
  [mkDet 0 0 1 1 (chars "h1") 1, mkDet 0 2 1 4 (chars "h2") 1,
   mkDet 0 5 1 8 (chars "h3") 1, mkDet 0 9 1 13 (chars "h4") 1]

/-- A detection whose maximal x-coordinate is the non-integer `5/2`. -/
def detHalfMax : Detection := mkDet 0 0 (5 / 2) 1 (chars "a") 1

/-- A detection whose minimal x-coordinate is the negative `-5/2`. -/
def detNegMin : Detection := mkDet (-5 / 2) 0 1 1 (chars "b") 1

/-- Two same-row detections with identical horizontal extent. -/
def detsSameX : List Detection :=
  [mkDet 0 0 2 1 (chars "a") 1, mkDet 0 0 2 1 (chars "b") 1]

/-- Two same-row detections with distinct horizontal extent. -/
def detsTwoCols : List Detection :=
  [mkDet 0 0 2 1 (chars "a") 1, mkDet 5 0 7 1 (chars "b") 1]

/-- A well-formed document with no `ocr_page` element. -/
def noPageDoc : List Char := chars "<a>bbox</a>"

/-- A well-formed document with one `ocr_page` element but no `bbox`. -/
def noBoxDoc : List Char := chars "<a class=\"ocr_page\"></a>"

/-- A malformed document: an unclosed element. -/
def badDoc : List Char := chars "<a>"

/-! ## Sorting lemmas -/

theorem insertSorted_perm {α β : Type} [LinearOrder β] (key : α → β) (x : α) :
    ∀ l : List α, (insertSorted key x l).Perm (x :: l)
  | [] => List.Perm.refl _
  | y :: ys => by
    unfold insertSorted
    split
    · exact ((insertSorted_perm key x ys).cons y).trans (List.Perm.swap x y ys)
    · exact List.Perm.refl _

theorem sortByKey_perm {α β : Type} [LinearOrder β] (key : α → β) :
    ∀ l : List α, (sortByKey key l).Perm l
  | [] => List.Perm.refl _
  | x :: xs =>
    (insertSorted_perm key x (sortByKey key xs)).trans ((sortByKey_perm key xs).cons x)

theorem sortByKey_ne_nil {α β : Type} [LinearOrder β] (key : α → β) (l : List α)
    (h : l ≠ []) : sortByKey key l ≠ [] := by
  intro h0
  have hlen := (sortByKey_perm key l).length_eq
  rw [h0] at hlen
  exact h (List.length_eq_zero.1 hlen.symm)

theorem insertSorted_pairwise {α β : Type} [LinearOrder β] {key : α → β} (x : α)
    {l : List α} (h : l.Pairwise (fun a b => key a ≤ key b)) :
    (insertSorted key x l).Pairwise (fun a b => key a ≤ key b) := by
  induction l with
  | nil => simp [insertSorted]
  | cons y ys ih =>
    rw [List.pairwise_cons] at h
    unfold insertSorted
    split
    · rename_i hlt
      rw [List.pairwise_cons]
      refine ⟨?_, ih h.2⟩
      intro z hz
      rcases List.mem_cons.1 ((insertSorted_perm key x ys).mem_iff.1 hz) with rfl | hz3
      · exact le_of_lt hlt
      · exact h.1 z hz3
    · rename_i hge
      rw [List.pairwise_cons]
      refine ⟨?_, List.pairwise_cons.2 h⟩
      intro z hz
      rcases List.mem_cons.1 hz with rfl | hz3
      · exact le_of_not_lt hge
      · exact le_trans (le_of_not_lt hge) (h.1 z hz3)

theorem sortByKey_pairwise {α β : Type} [LinearOrder β] (key : α → β) :
    ∀ l : List α, (sortByKey key l).Pairwise (fun a b => key a ≤ key b)
  | [] => List.Pairwise.nil
  | x :: xs => insertSorted_pairwise x (sortByKey_pairwise key xs)

/-! ## Sweep lemmas -/

theorem sweepLines_flatten (th : ℚ) :
    ∀ (rest : List Word) (anchor : ℚ) (cur : List Word),
      (sweepLines th anchor cur rest).flatten = cur ++ rest := by
  intro rest
  induction rest with
  | nil => intro anchor cur; simp [sweepLines]
  | cons w ws ih =>
    intro anchor cur
    unfold sweepLines
    split
    · rw [ih]; simp
    · rw [List.flatten_cons, ih]; simp

theorem sweepLines_ne_nil (th : ℚ) :
    ∀ (rest : List Word) (anchor : ℚ) (cur : List Word), cur ≠ [] →
      ∀ l ∈ sweepLines th anchor cur rest, l ≠ [] := by
  intro rest
  induction rest with
  | nil =>
    intro anchor cur hc l hl
    simp only [sweepLines, List.mem_singleton] at hl
    exact hl ▸ hc
  | cons w ws ih =>
    intro anchor cur hc l hl
    unfold sweepLines at hl
    split at hl
    · exact ih _ _ (by simp) l hl
    · rcases List.mem_cons.1 hl with rfl | hl2
      · exact hc
      · exact ih _ _ (by simp) l hl2

theorem sweepLines_all_close (th : ℚ) :
    ∀ (rest : List Word) (anchor : ℚ) (cur : List Word),
      (∀ w ∈ rest, |w.y_center - anchor| ≤ th) →
      sweepLines th anchor cur rest = [cur ++ rest] := by
  intro rest
  induction rest with
  | nil => intro anchor cur _; simp [sweepLines]
  | cons w ws ih =>
    intro anchor cur h
    unfold sweepLines
    rw [if_pos (h w (List.mem_cons_self w ws))]
    rw [ih anchor (cur ++ [w]) (fun u hu => h u (List.mem_cons_of_mem w hu))]
    simp

theorem flatten_map_perm {α : Type} (f : List α → List α) (h : ∀ l, (f l).Perm l) :
    ∀ L : List (List α), ((L.map f).flatten).Perm L.flatten := by
  intro L
  induction L with
  | nil => exact List.Perm.refl _
  | cons l ls ih => simpa using (h l).append ih

theorem mkLineData_words (lws : List Word) :
    (mkLineData lws).words = sortByKey Word.x_min lws := rfl

/-! ## C10: line grouping is a partition of the derived words -/

theorem grouping_flatten_perm (ds : List Detection) :
    (((group_easyocr_words_into_lines ds).map LineData.words).flatten).Perm (wordsOf ds) := by
  cases ds with
  | nil => exact List.Perm.refl _
  | cons d ds =>
    rcases hsort : sortByKey Word.y_center (wordsOf (d :: ds)) with _ | ⟨w0, rest⟩
    · exact absurd hsort (sortByKey_ne_nil _ _ (by simp [wordsOf]))
    · have hg : group_easyocr_words_into_lines (d :: ds) =
          (sweepLines ((medianHeight (wordsOf (d :: ds)) : ℚ) * (1 / 2))
            w0.y_center [w0] rest).map mkLineData := by
        unfold group_easyocr_words_into_lines
        rw [hsort]
      rw [hg, List.map_map]
      have h1 : (LineData.words ∘ mkLineData) = fun lws => sortByKey Word.x_min lws := rfl
      rw [h1]
      refine ((flatten_map_perm _ (fun l => sortByKey_perm Word.x_min l) _).trans ?_)
      rw [sweepLines_flatten]
      have h2 : ([w0] ++ rest : List Word) = w0 :: rest := rfl
      rw [h2, ← hsort]
      exact sortByKey_perm Word.y_center _

theorem grouping_lines_ne_nil (ds : List Detection) :
    ∀ l ∈ group_easyocr_words_into_lines ds, l.words ≠ [] := by
  cases ds with
  | nil => simp [group_easyocr_words_into_lines]
  | cons d ds =>
    rcases hsort : sortByKey Word.y_center (wordsOf (d :: ds)) with _ | ⟨w0, rest⟩
    · exact absurd hsort (sortByKey_ne_nil _ _ (by simp [wordsOf]))
    · have hg : group_easyocr_words_into_lines (d :: ds) =
          (sweepLines ((medianHeight (wordsOf (d :: ds)) : ℚ) * (1 / 2))
            w0.y_center [w0] rest).map mkLineData := by
        unfold group_easyocr_words_into_lines
        rw [hsort]
      intro l hl
      rw [hg] at hl
      rcases List.mem_map.1 hl with ⟨lws, hlws, rfl⟩
      have hne : lws ≠ [] :=
        sweepLines_ne_nil _ _ _ _ (by simp) lws hlws
      rw [mkLineData_words]
      exact sortByKey_ne_nil _ _ hne

/-- **C10**: for every input Detection sequence, the output of line
grouping is a partition of the derived Words: every Word appears in
exactly one output Line (the flattened line words are a permutation of
the extracted word list — nothing dropped, nothing duplicated), and
every output Line is non-empty. -/
theorem grouping_is_partition (ds : List Detection) :
    (((group_easyocr_words_into_lines ds).map LineData.words).flatten).Perm (wordsOf ds) ∧
    ∀ l ∈ group_easyocr_words_into_lines ds, l.words ≠ [] :=
  ⟨grouping_flatten_perm ds, grouping_lines_ne_nil ds⟩

/-! ## C3: pairwise-close words collapse into a single line -/

/-- **C3**: for every non-empty Word set in which all pairs of words
have `y_center` values differing by at most `0.5 × median height`, the
grouping engine produces exactly one Line containing all the words,
regardless of their x coordinates. -/
theorem all_close_single_line (ds : List Detection) (h1 : ds ≠ [])
    (h2 : ∀ w ∈ wordsOf ds, ∀ w2 ∈ wordsOf ds,
      |w.y_center - w2.y_center| ≤ (medianHeight (wordsOf ds) : ℚ) * (1 / 2)) :
    ∃ l, group_easyocr_words_into_lines ds = [l] ∧ l.words.Perm (wordsOf ds) := by
  cases ds with
  | nil => exact absurd rfl h1
  | cons d ds =>
    rcases hsort : sortByKey Word.y_center (wordsOf (d :: ds)) with _ | ⟨w0, rest⟩
    · exact absurd hsort (sortByKey_ne_nil _ _ (by simp [wordsOf]))
    · have hmem : ∀ w ∈ w0 :: rest, w ∈ wordsOf (d :: ds) := by
        intro w hw
        rw [← hsort] at hw
        exact (sortByKey_perm Word.y_center _).mem_iff.1 hw
      have hclose : ∀ w ∈ rest,
          |w.y_center - w0.y_center| ≤ (medianHeight (wordsOf (d :: ds)) : ℚ) * (1 / 2) :=
        fun w hw =>
          h2 w (hmem w (List.mem_cons_of_mem _ hw)) w0 (hmem w0 (List.mem_cons_self _ _))
      have hg : group_easyocr_words_into_lines (d :: ds) =
          (sweepLines ((medianHeight (wordsOf (d :: ds)) : ℚ) * (1 / 2))
            w0.y_center [w0] rest).map mkLineData := by
        unfold group_easyocr_words_into_lines
        rw [hsort]
      refine ⟨mkLineData (w0 :: rest), ?_, ?_⟩
      · rw [hg, sweepLines_all_close _ _ _ _ hclose]
        rfl
      · rw [mkLineData_words]
        refine (sortByKey_perm Word.x_min _).trans ?_
        rw [← hsort]
        exact sortByKey_perm Word.y_center _

/-- Witness for C3: two words on one row, far apart horizontally. -/
theorem all_close_single_line_witness :
    ∃ l, group_easyocr_words_into_lines detsTwoCols = [l] ∧
      l.words.Perm (wordsOf detsTwoCols) :=
  all_close_single_line detsTwoCols (by simp [detsTwoCols])
    (by with_unfolding_all decide)

/-! ## C9: word order inside a line -/

/-- **C9** is false as stated: two words with equal `x_min` land in one
line as consecutive members sharing their `x_min`, so the order is not
strict.  The produced line's `x_min` sequence is `[0, 0]`. -/
theorem line_strict_x_order_counterexample :
    ((group_easyocr_words_into_lines detsSameX).map
      (fun l => l.words.map Word.x_min)) = [[0, 0]] ∧
    ¬ List.Chain' (fun a b : ℤ => a < b) [0, 0] := by
  constructor
  · with_unfolding_all decide
  · intro h
    exact absurd (List.chain'_cons.1 h).1 (lt_irrefl 0)

/-- **C9 (amended)**: within every produced Line the member words are
ordered by non-decreasing `x_min` (ties between equal `x_min` values are
allowed, in input order). -/
theorem line_words_sorted_by_x_min (ds : List Detection) :
    ∀ l ∈ group_easyocr_words_into_lines ds,
      l.words.Pairwise (fun u v => u.x_min ≤ v.x_min) := by
  intro l hl
  cases ds with
  | nil => simp [group_easyocr_words_into_lines] at hl
  | cons d ds =>
    rcases hsort : sortByKey Word.y_center (wordsOf (d :: ds)) with _ | ⟨w0, rest⟩
    · exact absurd hsort (sortByKey_ne_nil _ _ (by simp [wordsOf]))
    · have hg : group_easyocr_words_into_lines (d :: ds) =
          (sweepLines ((medianHeight (wordsOf (d :: ds)) : ℚ) * (1 / 2))
            w0.y_center [w0] rest).map mkLineData := by
        unfold group_easyocr_words_into_lines
        rw [hsort]
      rw [hg] at hl
      rcases List.mem_map.1 hl with ⟨lws, _, rfl⟩
      rw [mkLineData_words]
      exact sortByKey_pairwise Word.x_min lws

/-- Witness for the amended C9 at a concrete input. -/
theorem line_words_sorted_by_x_min_witness :
    (mkLineData [toWord (mkDet 0 0 2 1 (chars "a") 1),
      toWord (mkDet 5 0 7 1 (chars "b") 1)]).words.Pairwise
        (fun u v => u.x_min ≤ v.x_min) :=
  line_words_sorted_by_x_min detsTwoCols _ (by with_unfolding_all decide)

/-! ## C2: the median height tie-break -/

/-- **C2** is false as stated: for word heights `1, 2, 3, 4` the code's
median (index `4 / 2 = 2` of the ascending list) is `3`, the upper of
the two middle values `2` and `3`, while the claimed lower-median
tie-break would give `2`. -/
theorem median_not_lower_counterexample :
    sortByKey id ((wordsOf detsEvenHeights).map Word.height) = [1, 2, 3, 4] ∧
    medianHeight (wordsOf detsEvenHeights) = 3 ∧
    min ((sortByKey id ((wordsOf detsEvenHeights).map Word.height)).getD
          ((wordsOf detsEvenHeights).length / 2 - 1) 0)
        ((sortByKey id ((wordsOf detsEvenHeights).map Word.height)).getD
          ((wordsOf detsEvenHeights).length / 2) 0) = 2 ∧
    (3 : ℤ) ≠ 2 := by
  refine ⟨?_, ?_, ?_, by decide⟩ <;> with_unfolding_all decide

/-- **C2 (amended)**: the line-grouping threshold's median height is the
element at index `⌊count/2⌋` of the ascending height list, which for
even counts `2m+2` is the **upper** of the two middle values (the
element at index `m+1`, at least as large as the element at index `m`). -/
theorem median_upper_tie_break (ws : List Word) (h : ws ≠ []) :
    medianHeight ws = (sortByKey id (ws.map Word.height)).getD (ws.length / 2) 0 ∧
    ∀ m : ℕ, ws.length = 2 * m + 2 →
      (sortByKey id (ws.map Word.height)).getD m 0 ≤ medianHeight ws ∧
      medianHeight ws = (sortByKey id (ws.map Word.height)).getD (m + 1) 0 := by
  refine ⟨rfl, ?_⟩
  intro m hm
  have hlen : (sortByKey id (ws.map Word.height)).length = 2 * m + 2 := by
    rw [(sortByKey_perm id _).length_eq, List.length_map, hm]
  have hidx : ws.length / 2 = m + 1 := by rw [hm]; omega
  have h1 : m < (sortByKey id (ws.map Word.height)).length := by omega
  have h2 : m + 1 < (sortByKey id (ws.map Word.height)).length := by omega
  constructor
  · have hp := sortByKey_pairwise id (ws.map Word.height)
    have hle := List.pairwise_iff_getElem.1 hp m (m + 1) h1 h2 (by omega)
    unfold medianHeight
    rw [hidx, List.getD_eq_getElem _ _ h1, List.getD_eq_getElem _ _ h2]
    exact hle
  · unfold medianHeight
    rw [hidx]

/-- Witness for the amended C2 at four words of heights `1, 2, 3, 4`. -/
theorem median_upper_tie_break_witness :
    (sortByKey id ((wordsOf detsEvenHeights).map Word.height)).getD 1 0 ≤
      medianHeight (wordsOf detsEvenHeights) ∧
    medianHeight (wordsOf detsEvenHeights) =
      (sortByKey id ((wordsOf detsEvenHeights).map Word.height)).getD 2 0 :=
  (median_upper_tie_break (wordsOf detsEvenHeights)
    (by with_unfolding_all decide)).2 1 (by with_unfolding_all decide)

/-! ## C4: the bounding box of a word -/

/-- **C4** is false as stated: the code truncates toward zero
(`int(...)`), so a maximal x of `5/2` gives `x1 = 2`, not the claimed
ceiling `3`; and a minimal x of `-5/2` gives `x0 = -2`, not the claimed
floor `-3`. -/
theorem bbox_not_floor_ceil_counterexample :
    (toWord detHalfMax).bbox.2.2.1 = 2 ∧
    ⌈listMaxQ [detHalfMax.p1.1, detHalfMax.p2.1, detHalfMax.p3.1, detHalfMax.p4.1]⌉ = 3 ∧
    (toWord detNegMin).bbox.1 = -2 ∧
    ⌊listMinQ [detNegMin.p1.1, detNegMin.p2.1, detNegMin.p3.1, detNegMin.p4.1]⌋ = -3 := by
  refine ⟨?_, ?_, ?_, ?_⟩ <;> with_unfolding_all decide

theorem truncQ_neg (q : ℚ) : truncQ (-q) = -truncQ q := by
  unfold truncQ
  rw [Rat.neg_num, Rat.neg_den, Int.neg_tdiv]

theorem truncQ_eq_floor {q : ℚ} (h : 0 ≤ q) : truncQ q = ⌊q⌋ := by
  unfold truncQ
  rw [Rat.floor_def,
    Int.tdiv_eq_ediv (by exact_mod_cast Rat.num_nonneg.2 h) (by positivity)]

theorem truncQ_eq_ceil {q : ℚ} (h : q ≤ 0) : truncQ q = ⌈q⌉ := by
  have h1 : truncQ q = -truncQ (-q) := by rw [truncQ_neg, neg_neg]
  rw [h1, truncQ_eq_floor (by linarith), Int.floor_neg, neg_neg]

theorem truncQ_mono {q r : ℚ} (h : q ≤ r) : truncQ q ≤ truncQ r := by
  rcases le_total 0 q with hq | hq
  · rw [truncQ_eq_floor hq, truncQ_eq_floor (le_trans hq h)]
    exact Int.floor_le_floor h
  · rcases le_total r 0 with hr | hr
    · rw [truncQ_eq_ceil hq, truncQ_eq_ceil hr]
      exact Int.ceil_le_ceil h
    · rw [truncQ_eq_ceil hq, truncQ_eq_floor hr]
      exact le_trans (Int.ceil_le.2 (by exact_mod_cast hq)) (Int.floor_nonneg.2 hr)

theorem listMinQ_le_listMaxQ (a b c d : ℚ) :
    listMinQ [a, b, c, d] ≤ listMaxQ [a, b, c, d] := by
  simp only [listMinQ, listMaxQ, List.foldl]
  exact le_trans (min_le_left _ _) (le_trans (min_le_left _ _)
    (le_trans (min_le_left _ _) (le_trans (le_max_left _ _)
      (le_trans (le_max_left _ _) (le_max_left _ _)))))

/-- **C4 (amended)**: every derived Word's bounding box is obtained by
truncating toward zero (Python `int()`) the polygon's coordinate
extrema — not floor/ceil — and satisfies `x0 ≤ x1` and `y0 ≤ y1`. -/
theorem bbox_truncation (d : Detection) :
    (toWord d).bbox =
      (truncQ (listMinQ [d.p1.1, d.p2.1, d.p3.1, d.p4.1]),
       truncQ (listMinQ [d.p1.2, d.p2.2, d.p3.2, d.p4.2]),
       truncQ (listMaxQ [d.p1.1, d.p2.1, d.p3.1, d.p4.1]),
       truncQ (listMaxQ [d.p1.2, d.p2.2, d.p3.2, d.p4.2])) ∧
    (toWord d).bbox.1 ≤ (toWord d).bbox.2.2.1 ∧
    (toWord d).bbox.2.1 ≤ (toWord d).bbox.2.2.2 := by
  refine ⟨rfl, ?_, ?_⟩
  · exact truncQ_mono (listMinQ_le_listMaxQ _ _ _ _)
  · exact truncQ_mono (listMinQ_le_listMaxQ _ _ _ _)

/-! ## C8: serialized confidence -/

/-- **C8**: for confidences in `[0, 1]` the serialized `x_wconf` value is
`⌊confidence × 100⌋` (truncation agrees with the floor on nonnegative
values); in particular `0.957 ↦ 95` and `1.0 ↦ 100`. -/
theorem conf_percent_is_floor (c : ℚ) (h0 : 0 ≤ c) (h1 : c ≤ 1) :
    conf_percent c = ⌊c * 100⌋ ∧
    conf_percent (957 / 1000) = 95 ∧ conf_percent 1 = 100 := by
  refine ⟨?_, by with_unfolding_all decide, by with_unfolding_all decide⟩
  unfold conf_percent
  exact truncQ_eq_floor (mul_nonneg h0 (by norm_num))

/-- Witness for C8 at confidence `0.957`. -/
theorem conf_percent_is_floor_witness :
    conf_percent (957 / 1000) = ⌊(957 / 1000 : ℚ) * 100⌋ ∧
    conf_percent (957 / 1000) = 95 ∧ conf_percent 1 = 100 :=
  conf_percent_is_floor (957 / 1000) (by norm_num) (by norm_num)

/-! ## C5: XML escaping -/

theorem replaceChar_append (c : Char) (r : List Char) (a b : List Char) :
    replaceChar c r (a ++ b) = replaceChar c r a ++ replaceChar c r b := by
  induction a with
  | nil => rfl
  | cons x xs ih => simp [replaceChar, ih]

theorem escape_xml_append (a b : List Char) :
    escape_xml (a ++ b) = escape_xml a ++ escape_xml b := by
  unfold escape_xml
  simp only [replaceChar_append]

theorem escape_xml_singleton (c : Char) : escape_xml [c] = tok c := by
  by_cases h1 : c = '&'
  · subst h1; decide
  by_cases h2 : c = '<'
  · subst h2; decide
  by_cases h3 : c = '>'
  · subst h3; decide
  by_cases h4 : c = '"'
  · subst h4; decide
  by_cases h5 : c = apostChar
  · subst h5; decide
  · simp [escape_xml, replaceChar, tok, h1, h2, h3, h4, h5]

theorem escape_xml_cons (c : Char) (s : List Char) :
    escape_xml (c :: s) = tok c ++ escape_xml s := by
  have h : (c :: s) = [c] ++ s := rfl
  rw [h, escape_xml_append, escape_xml_singleton]

set_option maxHeartbeats 2000000 in
theorem unescape_cons_ne (c : Char) (r : List Char) (h : c ≠ '&') :
    unescape (c :: r) = c :: unescape r := by
  simp [unescape, h]

theorem unescape_escape_xml (s : List Char) : unescape (escape_xml s) = s := by
  induction s with
  | nil => rfl
  | cons c s ih =>
    rw [escape_xml_cons]
    by_cases h1 : c = '&'
    · subst h1
      have step : unescape ('&' :: 'a' :: 'm' :: 'p' :: ';' :: escape_xml s) =
          '&' :: unescape (escape_xml s) := rfl
      show unescape ('&' :: 'a' :: 'm' :: 'p' :: ';' :: escape_xml s) = _
      rw [step, ih]
    by_cases h2 : c = '<'
    · subst h2
      have step : unescape ('&' :: 'l' :: 't' :: ';' :: escape_xml s) =
          '<' :: unescape (escape_xml s) := rfl
      show unescape ('&' :: 'l' :: 't' :: ';' :: escape_xml s) = _
      rw [step, ih]
    by_cases h3 : c = '>'
    · subst h3
      have step : unescape ('&' :: 'g' :: 't' :: ';' :: escape_xml s) =
          '>' :: unescape (escape_xml s) := rfl
      show unescape ('&' :: 'g' :: 't' :: ';' :: escape_xml s) = _
      rw [step, ih]
    by_cases h4 : c = '"'
    · subst h4
      have step : unescape ('&' :: 'q' :: 'u' :: 'o' :: 't' :: ';' :: escape_xml s) =
          '"' :: unescape (escape_xml s) := rfl
      show unescape ('&' :: 'q' :: 'u' :: 'o' :: 't' :: ';' :: escape_xml s) = _
      rw [step, ih]
    by_cases h5 : c = apostChar
    · subst h5
      have step : unescape ('&' :: 'a' :: 'p' :: 'o' :: 's' :: ';' :: escape_xml s) =
          apostChar :: unescape (escape_xml s) := rfl
      show unescape ('&' :: 'a' :: 'p' :: 'o' :: 's' :: ';' :: escape_xml s) = _
      rw [step, ih]
    · have htok : tok c = [c] := by simp [tok, h1, h2, h3, h4, h5]
      rw [htok]
      show unescape (c :: escape_xml s) = _
      rw [unescape_cons_ne c _ h1, ih]

theorem lt_not_mem_tok (c : Char) : '<' ∉ tok c := by
  unfold tok
  split_ifs with a1 a2 a3 a4 a5
  · subst a1; decide
  · subst a2; decide
  · subst a3; decide
  · subst a4; decide
  · subst a5; decide
  · intro hm
    exact a2 (List.mem_singleton.1 hm).symm

theorem quot_not_mem_tok (c : Char) : '"' ∉ tok c := by
  unfold tok
  split_ifs with a1 a2 a3 a4 a5
  · subst a1; decide
  · subst a2; decide
  · subst a3; decide
  · subst a4; decide
  · subst a5; decide
  · intro hm
    exact a4 (List.mem_singleton.1 hm).symm

theorem escape_xml_no_lt (s : List Char) : '<' ∉ escape_xml s := by
  induction s with
  | nil => simp [escape_xml, replaceChar]
  | cons c s ih =>
    rw [escape_xml_cons]
    simp only [List.mem_append]
    exact fun h => h.elim (lt_not_mem_tok c) ih

theorem escape_xml_no_quot (s : List Char) : '"' ∉ escape_xml s := by
  induction s with
  | nil => simp [escape_xml, replaceChar]
  | cons c s ih =>
    rw [escape_xml_cons]
    simp only [List.mem_append]
    exact fun h => h.elim (quot_not_mem_tok c) ih

/-- **C5**: the serializer escapes exactly the five characters
`& < > " '` as `&amp; &lt; &gt; &quot; &apos;` (evidenced on the list of
the five characters themselves), the ampersand substitution coming first
so no later entity is re-escaped; the escaped text never contains a raw
`<` or `"`, and XML entity decoding recovers the original text exactly. -/
theorem escape_xml_roundtrip (s : List Char) :
    unescape (escape_xml s) = s ∧
    escape_xml ['&', '<', '>', '"', apostChar] =
      chars "&amp;&lt;&gt;&quot;" ++ aposEntity ∧
    '<' ∉ escape_xml s ∧ '"' ∉ escape_xml s :=
  ⟨unescape_escape_xml s, by decide, escape_xml_no_lt s, escape_xml_no_quot s⟩

/-! ## Substring counting lemmas -/

theorem prefix_append_cons_iff {p : List Char} (c : Char) (hc : c ∉ p)
    (a b : List Char) : p <+: (a ++ c :: b) ↔ p <+: a := by
  constructor
  · intro h
    rcases le_or_lt p.length a.length with hl | hl
    · exact List.prefix_of_prefix_length_le h (List.prefix_append a (c :: b)) hl
    · exfalso
      rcases h with ⟨t, ht⟩
      have hi : a.length < (a ++ c :: b).length := by simp
      have hip : a.length < (p ++ t).length := by rw [ht]; exact hi
      have h2 : (p ++ t)[a.length] = (a ++ c :: b)[a.length] := by
        congr 1
      rw [List.getElem_append_left hl] at h2
      rw [List.getElem_append_right (le_refl a.length)] at h2
      simp at h2
      exact hc (h2 ▸ List.getElem_mem hl)
  · intro h
    exact h.trans (List.prefix_append a (c :: b))

theorem countSub_cons (p : List Char) (c : Char) (r : List Char) :
    countSub p (c :: r) = (if p <+: (c :: r) then 1 else 0) + countSub p r := rfl

theorem countSub_append_cons (p : List Char) (hp : p ≠ []) (c : Char) (hc : c ∉ p)
    (a b : List Char) : countSub p (a ++ c :: b) = countSub p a + countSub p b := by
  induction a with
  | nil =>
    show countSub p (c :: b) = countSub p [] + countSub p b
    rw [countSub_cons, if_neg]
    · rfl
    · intro hpre
      rcases p with _ | ⟨p0, pr⟩
      · exact hp rfl
      · rcases hpre with ⟨t, ht⟩
        simp only [List.cons_append, List.cons.injEq] at ht
        exact hc (by rw [← ht.1]; exact List.mem_cons_self p0 pr)
  | cons x a ih =>
    show countSub p (x :: (a ++ c :: b)) = countSub p (x :: a) + countSub p b
    rw [countSub_cons, countSub_cons p x a]
    have heq : (p <+: x :: (a ++ c :: b)) ↔ (p <+: x :: a) :=
      prefix_append_cons_iff c hc (x :: a) b
    rw [ih]
    by_cases hx : p <+: x :: a
    · rw [if_pos hx, if_pos (heq.2 hx)]
      omega
    · rw [if_neg hx, if_neg (fun hy => hx (heq.1 hy))]
      omega

theorem countSub_eq_zero_of_missing {p l : List Char} (x : Char) (hx : x ∈ p)
    (hl : x ∉ l) : countSub p l = 0 := by
  induction l with
  | nil => rfl
  | cons c r ih =>
    rw [countSub_cons, if_neg]
    · rw [Nat.zero_add]
      exact ih (fun h => hl (List.mem_cons_of_mem c h))
    · intro hpre
      exact hl (hpre.subset hx)

theorem countSub_eq_zero_of_count_lt {p l : List Char} (x : Char)
    (h : l.count x < p.count x) : countSub p l = 0 := by
  induction l with
  | nil => rfl
  | cons c r ih =>
    rw [countSub_cons, if_neg]
    · rw [Nat.zero_add]
      refine ih ?_
      have : r.count x ≤ (c :: r).count x := by
        by_cases hcx : x = c <;> simp [List.count_cons, hcx]
      omega
    · intro hpre
      have := hpre.sublist.count_le x
      omega

theorem countSub_le_append_left (p a b : List Char) :
    countSub p a ≤ countSub p (a ++ b) := by
  induction a with
  | nil => exact Nat.zero_le _
  | cons c r ih =>
    show countSub p (c :: r) ≤ countSub p (c :: (r ++ b))
    rw [countSub_cons, countSub_cons]
    by_cases hx : p <+: c :: r
    · have hx2 : p <+: c :: (r ++ b) := by
        have h3 := hx.trans ((c :: r).prefix_append b)
        simpa using h3
      rw [if_pos hx, if_pos hx2]
      omega
    · rw [if_neg hx]
      split <;> omega

theorem countSub_le_cons (p : List Char) (c : Char) (r : List Char) :
    countSub p r ≤ countSub p (c :: r) := by
  rw [countSub_cons]
  omega

theorem countSub_le_append_right (p a b : List Char) :
    countSub p b ≤ countSub p (a ++ b) := by
  induction a with
  | nil => exact le_refl _
  | cons c r ih => exact le_trans ih (countSub_le_cons p c (r ++ b))

theorem hasSub_of_countSub_pos {p s : List Char} (h : 0 < countSub p s) :
    hasSub p s = true := by
  unfold hasSub
  simpa using Nat.pos_iff_ne_zero.1 h

/-! ## Join lemmas -/

theorem joinLines_eq (l : List Char) (ls : List (List Char)) :
    joinLines (l :: ls) = l ++ preJoin ls := by
  induction ls generalizing l with
  | nil => simp [joinLines, preJoin]
  | cons l2 ls2 ih =>
    rw [joinLines, ih l2]
    simp [preJoin]

theorem preJoin_append (A B : List (List Char)) :
    preJoin (A ++ B) = preJoin A ++ preJoin B := by
  simp [preJoin]

theorem preJoin_cons (l : List Char) (ls : List (List Char)) :
    preJoin (l :: ls) = '\n' :: (l ++ preJoin ls) := by
  simp [preJoin]

theorem countSub_newline_cons (p : List Char) (hp : p ≠ []) (hn : '\n' ∉ p)
    (x : List Char) : countSub p ('\n' :: x) = countSub p x := by
  have h := countSub_append_cons p hp '\n' hn [] x
  rw [List.nil_append] at h
  rw [h]
  simp [countSub]

theorem countSub_preJoin (p : List Char) (hp : p ≠ []) (hn : '\n' ∉ p) :
    ∀ ls : List (List Char), countSub p (preJoin ls) = (ls.map (countSub p)).sum := by
  intro ls
  induction ls with
  | nil => rfl
  | cons l ls ih =>
    rw [preJoin_cons, countSub_newline_cons p hp hn]
    cases ls with
    | nil => simp [preJoin]
    | cons l2 ls2 =>
      rw [preJoin_cons, countSub_append_cons p hp '\n' hn l (l2 ++ preJoin ls2)]
      have h4 : countSub p (preJoin (l2 :: ls2)) = countSub p (l2 ++ preJoin ls2) := by
        rw [preJoin_cons, countSub_newline_cons p hp hn]
      rw [← h4, ih]
      simp

/-! ## Character classes of rendered numbers -/

theorem natChars_mem_digits {n : Nat} {c : Char} (h : c ∈ natChars n) :
    c ∈ chars "0123456789" := by
  unfold natChars at h
  split at h
  · simp at h
    subst h
    decide
  · rcases List.mem_map.1 h with ⟨d, hd, rfl⟩
    have hd2 : d ∈ Nat.digits 10 n := List.mem_reverse.1 hd
    have hlt : d < 10 := Nat.digits_lt_base (by norm_num) hd2
    interval_cases d <;> decide

theorem intChars_mem {z : ℤ} {c : Char} (h : c ∈ intChars z) :
    c ∈ chars "-0123456789" := by
  have hsub : ∀ x ∈ chars "0123456789", x ∈ chars "-0123456789" := by decide
  unfold intChars at h
  split at h
  · rcases List.mem_cons.1 h with rfl | h2
    · decide
    · exact hsub _ (natChars_mem_digits h2)
  · exact hsub _ (natChars_mem_digits h)

theorem not_mem_natChars {c : Char} (hc : c ∉ chars "0123456789") (n : Nat) :
    c ∉ natChars n := fun h => hc (natChars_mem_digits h)

theorem not_mem_intChars {c : Char} (hc : c ∉ chars "-0123456789") (z : ℤ) :
    c ∉ intChars z := fun h => hc (intChars_mem h)

/-! ## XML scan lemmas -/

theorem scansTo_append {a b : List Char} {s1 s2 s3 : List (List Char)}
    (ha : ScansTo a s1 s2) (hb : ScansTo b s2 s3) : ScansTo (a ++ b) s1 s3 := by
  intro r
  rw [List.append_assoc, ha (b ++ r), hb r]

theorem scansTo_text {t : List Char} (ht : '<' ∉ t) (s : List (List Char)) :
    ScansTo t s s := by
  induction t with
  | nil => intro r; rfl
  | cons c cs ih =>
    intro r
    have hc : c ≠ '<' := fun h => ht (h ▸ List.mem_cons_self c cs)
    show xmlScan (c :: (cs ++ r)) ScanMode.text s = _
    simp only [xmlScan]
    rw [if_neg hc]
    exact ih (fun h => ht (List.mem_cons_of_mem c h)) r

theorem scan_tag_chunk {t : List Char} (ht : '>' ∉ t) :
    ∀ (buf r : List Char) (stk : List (List Char)),
      xmlScan (t ++ r) (ScanMode.tag buf) stk = xmlScan r (ScanMode.tag (buf ++ t)) stk := by
  induction t with
  | nil => intro buf r stk; simp
  | cons c cs ih =>
    intro buf r stk
    have hc : c ≠ '>' := fun h => ht (h ▸ List.mem_cons_self c cs)
    show xmlScan (c :: (cs ++ r)) (ScanMode.tag buf) stk = _
    simp only [xmlScan]
    rw [if_neg hc, ih (fun h => ht (List.mem_cons_of_mem c h)) (buf ++ [c]) r stk]
    simp

theorem scansTo_tag {tcon : List Char} {s s' : List (List Char)}
    (ht : '>' ∉ tcon) (hclose : closeTag tcon s = some s') :
    ScansTo ('<' :: (tcon ++ ['>'])) s s' := by
  intro r
  show xmlScan ('<' :: ((tcon ++ ['>']) ++ r)) ScanMode.text s = _
  simp only [xmlScan, if_pos, List.append_assoc, List.singleton_append]
  rw [scan_tag_chunk ht [] ('>' :: r) s]
  simp only [List.nil_append]
  show xmlScan ('>' :: r) (ScanMode.tag tcon) s = _
  simp only [xmlScan, if_pos, hclose]

theorem scansTo_newline_line {l : List Char} {s s' : List (List Char)}
    (h : ScansTo l s s') : ScansTo ('\n' :: l) s s' := by
  have h1 : ScansTo ['\n'] s s := scansTo_text (t := ['\n']) (by decide) s
  exact scansTo_append h1 h

theorem xmlCheck_of_scansTo {doc : List Char} (h : ScansTo doc [] []) :
    xmlCheck doc = true := by
  unfold xmlCheck
  have h2 := h []
  rw [List.append_nil] at h2
  rw [h2]
  rfl

theorem takeWhile_append_stop (f : Char → Bool) (a : List Char)
    (ha : ∀ c ∈ a, f c = true) (sep : Char) (hsep : f sep = false) (b : List Char) :
    List.takeWhile f (a ++ sep :: b) = a := by
  induction a with
  | nil => simp [List.takeWhile_cons, hsep]
  | cons x xs ih =>
    rw [List.cons_append, List.takeWhile_cons, ha x (List.mem_cons_self x xs),
      ih (fun c hc => ha c (List.mem_cons_of_mem x hc))]
    simp

theorem closeTag_push (c : Char) (r : List Char) (s : List (List Char))
    (h1 : ¬(c = '?' ∨ c = '!')) (h2 : ¬c = '/')
    (h3 : (c :: r).getLast? = some '"') :
    closeTag (c :: r) s =
      some ((c :: r).takeWhile (fun ch => ch != ' ' && ch != '/') :: s) := by
  simp only [closeTag]
  rw [if_neg h1, if_neg h2]
  simp only [h3]
  rw [if_neg (by decide)]

/-! ## C6: the validator's error behavior -/

/-- **C6** is false as stated: for a well-formed document with zero
pages the validator's reason is `"HOCR must contain at least one
ocr_page"`; the claimed reason `"must contain at least one page"` is not
that message, and does not even occur in it as a substring. -/
theorem validate_reason_counterexample :
    validate_hocr noPageDoc =
      Except.error (chars "HOCR must contain at least one ocr_page") ∧
    countSub (chars "must contain at least one page")
      (chars "HOCR must contain at least one ocr_page") = 0 ∧
    chars "HOCR must contain at least one ocr_page" ≠
      chars "must contain at least one page" := by
  refine ⟨by decide, by decide, by decide⟩

/-- **C6 (amended)**: `validate_hocr` raises a validation error and
nothing else exactly when parsing fails (the error wrapping the parse
failure's message), or the parsed `page_count` is 0 (message `"HOCR must
contain at least one ocr_page"`), or `has_bounding_boxes` is false
(message `"HOCR must contain bounding box coordinates"`); in all other
cases it returns with no value. -/
theorem validate_hocr_cases (s : List Char) :
    (∀ e, parse_hocr s = Except.error e →
       validate_hocr s = Except.error (chars "HOCR parsing failed: " ++ e)) ∧
    (∀ info, parse_hocr s = Except.ok info →
       (info.page_count = 0 →
          validate_hocr s = Except.error (chars "HOCR must contain at least one ocr_page")) ∧
       (info.page_count ≠ 0 → info.has_bounding_boxes = false →
          validate_hocr s = Except.error (chars "HOCR must contain bounding box coordinates")) ∧
       (info.page_count ≠ 0 → info.has_bounding_boxes = true →
          validate_hocr s = Except.ok ())) := by
  constructor
  · intro e he
    unfold validate_hocr
    rw [he]
  · intro info hinfo
    have hred : validate_hocr s =
        (if info.page_count = 0 then
          Except.error (chars "HOCR must contain at least one ocr_page")
         else if info.has_bounding_boxes = false then
          Except.error (chars "HOCR must contain bounding box coordinates")
         else Except.ok ()) := by
      unfold validate_hocr
      rw [hinfo]
    refine ⟨?_, ?_, ?_⟩
    · intro h0
      rw [hred, if_pos h0]
    · intro h0 hb
      rw [hred, if_neg h0, if_pos hb]
    · intro h0 hb
      rw [hred, if_neg h0, if_neg (by rw [hb]; decide)]

/-- Witness for the amended C6: the zero-page branch at a concrete
document. -/
theorem validate_hocr_cases_witness :
    validate_hocr noPageDoc =
      Except.error (chars "HOCR must contain at least one ocr_page") :=
  ((validate_hocr_cases noPageDoc).2 ⟨0, 0, true⟩ (by decide)).1 rfl

/-! ## Scanning the serialized document: header and footer lines -/

theorem closeTag_open_named (c : Char) (nm mid : List Char) (s : List (List Char))
    (h1 : ¬(c = '?' ∨ c = '!')) (h2 : ¬c = '/')
    (hf : ∀ x ∈ c :: nm, (x != ' ' && x != '/') = true) :
    closeTag ((c :: nm) ++ ' ' :: (mid ++ ['"'])) s = some ((c :: nm) :: s) := by
  have hshape : (c :: nm) ++ ' ' :: (mid ++ ['"']) = c :: (nm ++ ' ' :: (mid ++ ['"'])) := rfl
  have h3 : (c :: (nm ++ ' ' :: (mid ++ ['"']))).getLast? = some '"' := by
    rw [← hshape,
      show (c :: nm) ++ ' ' :: (mid ++ ['"']) = ((c :: nm) ++ ' ' :: mid) ++ ['"'] by simp]
    exact List.getLast?_concat _
  rw [hshape, closeTag_push c _ s h1 h2 h3]
  have h4 : List.takeWhile (fun ch => ch != ' ' && ch != '/')
      (c :: (nm ++ ' ' :: (mid ++ ['"']))) = c :: nm := by
    rw [← hshape]
    exact takeWhile_append_stop _ (c :: nm) hf ' ' (by decide) (mid ++ ['"'])
  rw [h4]

theorem scansTo_xmlDecl (s : List (List Char)) :
    ScansTo (chars "<?xml version=\"1.0\" encoding=\"UTF-8\"?>") s s := by
  have hd : chars "<?xml version=\"1.0\" encoding=\"UTF-8\"?>" =
      '<' :: (chars "?xml version=\"1.0\" encoding=\"UTF-8\"?" ++ ['>']) := by decide
  rw [hd]
  exact scansTo_tag (by decide) rfl

theorem scansTo_doctype (s : List (List Char)) :
    ScansTo (chars "<!DOCTYPE html PUBLIC \"-//W3C//DTD XHTML 1.0 Transitional//EN\" \"http://www.w3.org/TR/xhtml1/DTD/xhtml1-transitional.dtd\">") s s := by
  have hd : chars "<!DOCTYPE html PUBLIC \"-//W3C//DTD XHTML 1.0 Transitional//EN\" \"http://www.w3.org/TR/xhtml1/DTD/xhtml1-transitional.dtd\">" =
      '<' :: (chars "!DOCTYPE html PUBLIC \"-//W3C//DTD XHTML 1.0 Transitional//EN\" \"http://www.w3.org/TR/xhtml1/DTD/xhtml1-transitional.dtd\"" ++ ['>']) := by decide
  rw [hd]
  exact scansTo_tag (by decide) rfl

theorem scansTo_htmlOpen (s : List (List Char)) :
    ScansTo (chars "<html xmlns=\"http://www.w3.org/1999/xhtml\" xml:lang=\"en\" lang=\"en\">")
      s (chars "html" :: s) := by
  have hd : chars "<html xmlns=\"http://www.w3.org/1999/xhtml\" xml:lang=\"en\" lang=\"en\">" =
      '<' :: (chars "html xmlns=\"http://www.w3.org/1999/xhtml\" xml:lang=\"en\" lang=\"en\"" ++ ['>']) := by decide
  rw [hd]
  exact scansTo_tag (by decide) rfl

theorem scansTo_headOpen (s : List (List Char)) :
    ScansTo (chars "<head>") s (chars "head" :: s) := by
  have hd : chars "<head>" = '<' :: (chars "head" ++ ['>']) := by decide
  rw [hd]
  exact scansTo_tag (by decide) rfl

theorem scansTo_meta1 (s : List (List Char)) :
    ScansTo (chars " <meta http-equiv=\"content-type\" content=\"text/html; charset=utf-8\" />") s s := by
  have hd : chars " <meta http-equiv=\"content-type\" content=\"text/html; charset=utf-8\" />" =
      [' '] ++ ('<' :: (chars "meta http-equiv=\"content-type\" content=\"text/html; charset=utf-8\" /" ++ ['>'])) := by decide
  rw [hd]
  exact scansTo_append (scansTo_text (by decide) s) (scansTo_tag (by decide) rfl)

theorem scansTo_meta2 (s : List (List Char)) :
    ScansTo (chars " <meta name=\"ocr-system\" content=\"easyocr\" />") s s := by
  have hd : chars " <meta name=\"ocr-system\" content=\"easyocr\" />" =
      [' '] ++ ('<' :: (chars "meta name=\"ocr-system\" content=\"easyocr\" /" ++ ['>'])) := by decide
  rw [hd]
  exact scansTo_append (scansTo_text (by decide) s) (scansTo_tag (by decide) rfl)

theorem scansTo_meta3 (s : List (List Char)) :
    ScansTo (chars " <meta name=\"ocr-capabilities\" content=\"ocr_page ocr_carea ocr_par ocr_line ocrx_word\" />") s s := by
  have hd : chars " <meta name=\"ocr-capabilities\" content=\"ocr_page ocr_carea ocr_par ocr_line ocrx_word\" />" =
      [' '] ++ ('<' :: (chars "meta name=\"ocr-capabilities\" content=\"ocr_page ocr_carea ocr_par ocr_line ocrx_word\" /" ++ ['>'])) := by decide
  rw [hd]
  exact scansTo_append (scansTo_text (by decide) s) (scansTo_tag (by decide) rfl)

theorem scansTo_headClose (s : List (List Char)) :
    ScansTo (chars "</head>") (chars "head" :: s) s := by
  have hd : chars "</head>" = '<' :: (chars "/head" ++ ['>']) := by decide
  rw [hd]
  exact scansTo_tag (by decide) rfl

theorem scansTo_bodyOpen (s : List (List Char)) :
    ScansTo (chars "<body>") s (chars "body" :: s) := by
  have hd : chars "<body>" = '<' :: (chars "body" ++ ['>']) := by decide
  rw [hd]
  exact scansTo_tag (by decide) rfl

theorem scansTo_divClose (s : List (List Char)) :
    ScansTo (chars "  </div>") (chars "div" :: s) s := by
  have hd : chars "  </div>" = chars "  " ++ ('<' :: (chars "/div" ++ ['>'])) := by decide
  rw [hd]
  exact scansTo_append (scansTo_text (by decide) _) (scansTo_tag (by decide) rfl)

theorem scansTo_bodyClose (s : List (List Char)) :
    ScansTo (chars "</body>") (chars "body" :: s) s := by
  have hd : chars "</body>" = '<' :: (chars "/body" ++ ['>']) := by decide
  rw [hd]
  exact scansTo_tag (by decide) rfl

theorem scansTo_htmlClose (s : List (List Char)) :
    ScansTo (chars "</html>") (chars "html" :: s) s := by
  have hd : chars "</html>" = '<' :: (chars "/html" ++ ['>']) := by decide
  rw [hd]
  exact scansTo_tag (by decide) rfl

/-! ## Scanning the serialized document: body lines -/

theorem nmApp {c : Char} {a b : List Char} (ha : c ∉ a) (hb : c ∉ b) :
    c ∉ a ++ b := fun h => (List.mem_append.1 h).elim ha hb

theorem nmCons {c x : Char} {l : List Char} (hx : c ≠ x) (hl : c ∉ l) :
    c ∉ x :: l := fun h => (List.mem_cons.1 h).elim hx hl

theorem scansTo_divLine (W H : Nat) (s : List (List Char)) :
    ScansTo (chars "  <div class=\"ocr_page\" id=\"page_1\" title=\"bbox 0 0 " ++
      natChars W ++ [' '] ++ natChars H ++ chars "\">") s (chars "div" :: s) := by
  have hd : chars "  <div class=\"ocr_page\" id=\"page_1\" title=\"bbox 0 0 " ++
      natChars W ++ [' '] ++ natChars H ++ chars "\">" =
      chars "  " ++ ('<' :: ((chars "div" ++ ' ' ::
        ((chars "class=\"ocr_page\" id=\"page_1\" title=\"bbox 0 0 " ++
          (natChars W ++ (' ' :: natChars H))) ++ ['"'])) ++ ['>'])) := by
    rw [show chars "  <div class=\"ocr_page\" id=\"page_1\" title=\"bbox 0 0 " =
      chars "  " ++ '<' :: (chars "div" ++ ' ' ::
        chars "class=\"ocr_page\" id=\"page_1\" title=\"bbox 0 0 ") from by decide,
      show chars "\">" = ['"'] ++ ['>'] from by decide]
    simp [List.append_assoc]
  rw [hd]
  refine scansTo_append (scansTo_text (by decide) s) (scansTo_tag ?_ ?_)
  · refine nmApp (by decide) (nmCons (by decide) (nmApp (nmApp (by decide) ?_) (by decide)))
    exact nmApp (not_mem_natChars (by decide) W)
      (nmCons (by decide) (not_mem_natChars (by decide) H))
  · exact closeTag_open_named 'd' (chars "iv") _ s (by decide) (by decide) (by decide)

theorem scansTo_lineLine (k : Nat) (bb : ℤ × ℤ × ℤ × ℤ) (s : List (List Char)) :
    ScansTo (lineLine k bb) s (chars "span" :: s) := by
  unfold lineLine
  have hd : chars "    <span class=\"ocr_line\" id=\"line_1_" ++ natChars k ++
      chars "\" title=\"bbox " ++ intChars bb.1 ++ [' '] ++ intChars bb.2.1 ++ [' '] ++
      intChars bb.2.2.1 ++ [' '] ++ intChars bb.2.2.2 ++ chars "\">" =
      chars "    " ++ ('<' :: ((chars "span" ++ ' ' ::
        ((chars "class=\"ocr_line\" id=\"line_1_" ++
          (natChars k ++ (chars "\" title=\"bbox " ++ (intChars bb.1 ++ (' ' ::
            (intChars bb.2.1 ++ (' ' :: (intChars bb.2.2.1 ++ (' ' ::
              intChars bb.2.2.2))))))))) ++ ['"'])) ++ ['>'])) := by
    rw [show chars "    <span class=\"ocr_line\" id=\"line_1_" =
      chars "    " ++ '<' :: (chars "span" ++ ' ' ::
        chars "class=\"ocr_line\" id=\"line_1_") from by decide,
      show chars "\">" = ['"'] ++ ['>'] from by decide]
    simp [List.append_assoc]
  rw [hd]
  refine scansTo_append (scansTo_text (by decide) s) (scansTo_tag ?_ ?_)
  · refine nmApp (by decide) (nmCons (by decide) (nmApp (nmApp (by decide) ?_) (by decide)))
    refine nmApp (not_mem_natChars (by decide) k) (nmApp (by decide) ?_)
    refine nmApp (not_mem_intChars (by decide) bb.1) (nmCons (by decide) ?_)
    refine nmApp (not_mem_intChars (by decide) bb.2.1) (nmCons (by decide) ?_)
    exact nmApp (not_mem_intChars (by decide) bb.2.2.1)
      (nmCons (by decide) (not_mem_intChars (by decide) bb.2.2.2))
  · exact closeTag_open_named 's' (chars "pan") _ s (by decide) (by decide) (by decide)

theorem scansTo_wordLine (wc : Nat) (w : Word) (s : List (List Char)) :
    ScansTo (wordLine wc w) s s := by
  unfold wordLine
  have hd : chars "      <span class=\"ocrx_word\" id=\"word_1_" ++ natChars wc ++
      chars "\" title=\"bbox " ++ intChars w.bbox.1 ++ [' '] ++ intChars w.bbox.2.1 ++ [' '] ++
      intChars w.bbox.2.2.1 ++ [' '] ++ intChars w.bbox.2.2.2 ++ chars "; x_wconf " ++
      intChars (conf_percent w.confidence) ++ chars "\">" ++ escape_xml w.text ++
      chars "</span>" =
      (chars "      " ++ ('<' :: ((chars "span" ++ ' ' ::
        ((chars "class=\"ocrx_word\" id=\"word_1_" ++
          (natChars wc ++ (chars "\" title=\"bbox " ++ (intChars w.bbox.1 ++ (' ' ::
            (intChars w.bbox.2.1 ++ (' ' :: (intChars w.bbox.2.2.1 ++ (' ' ::
              (intChars w.bbox.2.2.2 ++ (chars "; x_wconf " ++
                intChars (conf_percent w.confidence)))))))))))) ++ ['"'])) ++ ['>']))) ++
      (escape_xml w.text ++ ('<' :: (chars "/span" ++ ['>']))) := by
    rw [show chars "      <span class=\"ocrx_word\" id=\"word_1_" =
      chars "      " ++ '<' :: (chars "span" ++ ' ' ::
        chars "class=\"ocrx_word\" id=\"word_1_") from by decide,
      show chars "</span>" = '<' :: (chars "/span" ++ ['>']) from by decide,
      show chars "\">" = ['"'] ++ ['>'] from by decide]
    simp [List.append_assoc]
  rw [hd]
  have h2 : ScansTo (escape_xml w.text ++ ('<' :: (chars "/span" ++ ['>'])))
      (chars "span" :: s) s :=
    scansTo_append (scansTo_text (escape_xml_no_lt w.text) _) (scansTo_tag (by decide) rfl)
  refine @scansTo_append _ _ s (chars "span" :: s) s
    (scansTo_append (scansTo_text (by decide) s) (scansTo_tag ?_ ?_)) h2
  · refine nmApp (by decide) (nmCons (by decide) (nmApp (nmApp (by decide) ?_) (by decide)))
    refine nmApp (not_mem_natChars (by decide) wc) (nmApp (by decide) ?_)
    refine nmApp (not_mem_intChars (by decide) w.bbox.1) (nmCons (by decide) ?_)
    refine nmApp (not_mem_intChars (by decide) w.bbox.2.1) (nmCons (by decide) ?_)
    refine nmApp (not_mem_intChars (by decide) w.bbox.2.2.1) (nmCons (by decide) ?_)
    refine nmApp (not_mem_intChars (by decide) w.bbox.2.2.2) (nmApp (by decide) ?_)
    exact not_mem_intChars (by decide) (conf_percent w.confidence)
  · exact closeTag_open_named 's' (chars "pan") _ s (by decide) (by decide) (by decide)

theorem scansTo_lineClose (s : List (List Char)) :
    ScansTo (chars "    </span>") (chars "span" :: s) s := by
  have hd : chars "    </span>" = chars "    " ++ ('<' :: (chars "/span" ++ ['>'])) := by decide
  rw [hd]
  exact scansTo_append (scansTo_text (by decide) _) (scansTo_tag (by decide) rfl)

theorem scansTo_nil (s : List (List Char)) : ScansTo [] s s := fun _ => rfl

theorem scansTo_wordLines (ws : List Word) :
    ∀ (wc : Nat) (s : List (List Char)), ScansTo (preJoin (wordLinesList wc ws)) s s := by
  induction ws with
  | nil => intro wc s; exact scansTo_nil s
  | cons w rest ih =>
    intro wc s
    show ScansTo (preJoin (wordLine wc w :: wordLinesList (wc + 1) rest)) s s
    rw [preJoin_cons]
    exact scansTo_newline_line
      (scansTo_append (scansTo_wordLine wc w s) (ih (wc + 1) s))

theorem scansTo_body (ls : List LineData) :
    ∀ (i wc : Nat) (s : List (List Char)), ScansTo (preJoin (bodyLines i wc ls)) s s := by
  induction ls with
  | nil => intro i wc s; exact scansTo_nil s
  | cons l rest ih =>
    intro i wc s
    show ScansTo (preJoin (lineLine i l.bbox ::
      (wordLinesList wc l.words ++
        (chars "    </span>" :: bodyLines (i + 1) (wc + l.words.length) rest)))) s s
    rw [preJoin_cons, preJoin_append, preJoin_cons]
    refine scansTo_newline_line (scansTo_append (scansTo_lineLine i l.bbox s) ?_)
    refine scansTo_append (scansTo_wordLines l.words wc _) ?_
    exact scansTo_newline_line
      (scansTo_append (scansTo_lineClose s) (ih (i + 1) (wc + l.words.length) s))

/-! ## The serialized document is well-formed -/

theorem scansTo_headerRest (W H : Nat) :
    ScansTo (preJoin
      [chars "<!DOCTYPE html PUBLIC \"-//W3C//DTD XHTML 1.0 Transitional//EN\" \"http://www.w3.org/TR/xhtml1/DTD/xhtml1-transitional.dtd\">",
       chars "<html xmlns=\"http://www.w3.org/1999/xhtml\" xml:lang=\"en\" lang=\"en\">",
       chars "<head>",
       chars " <meta http-equiv=\"content-type\" content=\"text/html; charset=utf-8\" />",
       chars " <meta name=\"ocr-system\" content=\"easyocr\" />",
       chars " <meta name=\"ocr-capabilities\" content=\"ocr_page ocr_carea ocr_par ocr_line ocrx_word\" />",
       chars "</head>",
       chars "<body>",
       chars "  <div class=\"ocr_page\" id=\"page_1\" title=\"bbox 0 0 " ++
         natChars W ++ [' '] ++ natChars H ++ chars "\">"])
      [] [chars "div", chars "body", chars "html"] := by
  rw [preJoin_cons, preJoin_cons, preJoin_cons, preJoin_cons, preJoin_cons, preJoin_cons,
    preJoin_cons, preJoin_cons, preJoin_cons]
  refine scansTo_newline_line (scansTo_append (scansTo_doctype _) ?_)
  refine scansTo_newline_line (scansTo_append (scansTo_htmlOpen _) ?_)
  refine scansTo_newline_line (scansTo_append (scansTo_headOpen _) ?_)
  refine scansTo_newline_line (scansTo_append (scansTo_meta1 _) ?_)
  refine scansTo_newline_line (scansTo_append (scansTo_meta2 _) ?_)
  refine scansTo_newline_line (scansTo_append (scansTo_meta3 _) ?_)
  refine scansTo_newline_line (scansTo_append (scansTo_headClose _) ?_)
  refine scansTo_newline_line (scansTo_append (scansTo_bodyOpen _) ?_)
  refine scansTo_newline_line ?_
  rw [show preJoin ([] : List (List Char)) = [] from rfl, List.append_nil]
  exact scansTo_divLine W H _

theorem scansTo_footer :
    ScansTo (preJoin footerLines) [chars "div", chars "body", chars "html"] [] := by
  show ScansTo (preJoin [chars "  </div>", chars "</body>", chars "</html>"]) _ _
  rw [preJoin_cons, preJoin_cons, preJoin_cons]
  refine scansTo_newline_line (scansTo_append (scansTo_divClose _) ?_)
  refine scansTo_newline_line (scansTo_append (scansTo_bodyClose _) ?_)
  refine scansTo_newline_line ?_
  rw [show preJoin ([] : List (List Char)) = [] from rfl, List.append_nil]
  exact scansTo_htmlClose []

theorem xmlCheck_serialized (ds : List Detection) (W H : Nat) :
    xmlCheck (easyocr_to_hocr ds W H) = true := by
  apply xmlCheck_of_scansTo
  unfold easyocr_to_hocr
  have hshape : headerLines W H ++ bodyLines 1 1 (group_easyocr_words_into_lines ds) ++
      footerLines =
      chars "<?xml version=\"1.0\" encoding=\"UTF-8\"?>" ::
        (([chars "<!DOCTYPE html PUBLIC \"-//W3C//DTD XHTML 1.0 Transitional//EN\" \"http://www.w3.org/TR/xhtml1/DTD/xhtml1-transitional.dtd\">",
           chars "<html xmlns=\"http://www.w3.org/1999/xhtml\" xml:lang=\"en\" lang=\"en\">",
           chars "<head>",
           chars " <meta http-equiv=\"content-type\" content=\"text/html; charset=utf-8\" />",
           chars " <meta name=\"ocr-system\" content=\"easyocr\" />",
           chars " <meta name=\"ocr-capabilities\" content=\"ocr_page ocr_carea ocr_par ocr_line ocrx_word\" />",
           chars "</head>",
           chars "<body>",
           chars "  <div class=\"ocr_page\" id=\"page_1\" title=\"bbox 0 0 " ++
             natChars W ++ [' '] ++ natChars H ++ chars "\">"] ++
          bodyLines 1 1 (group_easyocr_words_into_lines ds)) ++ footerLines) := rfl
  rw [hshape, joinLines_eq, preJoin_append, preJoin_append]
  exact scansTo_append (scansTo_xmlDecl _)
    (scansTo_append (scansTo_append (scansTo_headerRest W H)
      (scansTo_body (group_easyocr_words_into_lines ds) 1 1 _)) scansTo_footer)

/-! ## Counting words in the serialized document -/

theorem countSub_joinLines (p : List Char) (hp : p ≠ []) (hn : '\n' ∉ p) :
    ∀ ls : List (List Char), countSub p (joinLines ls) = (ls.map (countSub p)).sum := by
  intro ls
  cases ls with
  | nil => rfl
  | cons l rest =>
    rw [joinLines_eq]
    cases rest with
    | nil => simp [preJoin]
    | cons l2 ls2 =>
      rw [preJoin_cons, countSub_append_cons p hp '\n' hn l (l2 ++ preJoin ls2)]
      have h4 : countSub p (preJoin (l2 :: ls2)) = countSub p (l2 ++ preJoin ls2) := by
        rw [preJoin_cons, countSub_newline_cons p hp hn]
      rw [← h4, countSub_preJoin p hp hn]
      simp

theorem countSub_word_wordLine (wc : Nat) (w : Word) :
    countSub wordClassPat (wordLine wc w) = 1 := by
  unfold wordLine
  have hd : chars "      <span class=\"ocrx_word\" id=\"word_1_" ++ natChars wc ++
      chars "\" title=\"bbox " ++ intChars w.bbox.1 ++ [' '] ++ intChars w.bbox.2.1 ++ [' '] ++
      intChars w.bbox.2.2.1 ++ [' '] ++ intChars w.bbox.2.2.2 ++ chars "; x_wconf " ++
      intChars (conf_percent w.confidence) ++ chars "\">" ++ escape_xml w.text ++
      chars "</span>" =
      chars "      <span" ++ ' ' :: (chars "class=\"ocrx_word\"" ++ ' ' ::
        ((chars "id=\"word_1_" ++ (natChars wc ++ ['"'])) ++ ' ' ::
          (chars "title=\"bbox" ++ ' ' :: (intChars w.bbox.1 ++ ' ' ::
            (intChars w.bbox.2.1 ++ ' ' :: (intChars w.bbox.2.2.1 ++ ' ' ::
              ((intChars w.bbox.2.2.2 ++ [';']) ++ ' ' :: (chars "x_wconf" ++ ' ' ::
                (intChars (conf_percent w.confidence) ++ (['"', '>'] ++
                  (escape_xml w.text ++ chars "</span>"))))))))))) := by
    rw [show chars "      <span class=\"ocrx_word\" id=\"word_1_" =
          chars "      <span" ++ ' ' :: (chars "class=\"ocrx_word\"" ++ ' ' ::
            chars "id=\"word_1_") from by decide,
        show chars "\" title=\"bbox " =
          ['"'] ++ ' ' :: (chars "title=\"bbox" ++ [' ']) from by decide,
        show chars "; x_wconf " = [';'] ++ ' ' :: (chars "x_wconf" ++ [' ']) from by decide,
        show chars "\">" = ['"', '>'] from by decide]
    simp [List.append_assoc]
  rw [hd]
  have hp0 : wordClassPat ≠ [] := by decide
  have hsp : ' ' ∉ wordClassPat := by decide
  simp only [countSub_append_cons wordClassPat hp0 ' ' hsp]
  rw [show countSub wordClassPat (chars "      <span") = 0 from by decide,
    show countSub wordClassPat (chars "class=\"ocrx_word\"") = 1 from by decide,
    show countSub wordClassPat (chars "title=\"bbox") = 0 from by decide,
    show countSub wordClassPat (chars "x_wconf") = 0 from by decide]
  rw [countSub_eq_zero_of_missing 'c' (by decide)
    (nmApp (by decide) (nmApp (not_mem_natChars (by decide) wc) (by decide)))]
  rw [countSub_eq_zero_of_missing '"' (by decide) (not_mem_intChars (by decide) w.bbox.1)]
  rw [countSub_eq_zero_of_missing '"' (by decide) (not_mem_intChars (by decide) w.bbox.2.1)]
  rw [countSub_eq_zero_of_missing '"' (by decide) (not_mem_intChars (by decide) w.bbox.2.2.1)]
  rw [countSub_eq_zero_of_missing '"' (by decide)
    (nmApp (not_mem_intChars (by decide) w.bbox.2.2.2) (by decide))]
  rw [countSub_eq_zero_of_count_lt '"' ?hcnt]
  case hcnt =>
    have h1 : (intChars (conf_percent w.confidence)).count '"' = 0 :=
      List.count_eq_zero.2 (not_mem_intChars (by decide) _)
    have h2 : (escape_xml w.text).count '"' = 0 :=
      List.count_eq_zero.2 (escape_xml_no_quot _)
    simp only [List.count_append, h1, h2]
    decide

theorem countSub_word_lineLine (k : Nat) (bb : ℤ × ℤ × ℤ × ℤ) :
    countSub wordClassPat (lineLine k bb) = 0 := by
  refine countSub_eq_zero_of_missing 'w' (by decide) ?_
  unfold lineLine
  exact nmApp (nmApp (nmApp (nmApp (nmApp (nmApp (nmApp (nmApp (nmApp (nmApp
    (by decide) (not_mem_natChars (by decide) k)) (by decide))
    (not_mem_intChars (by decide) bb.1)) (by decide))
    (not_mem_intChars (by decide) bb.2.1)) (by decide))
    (not_mem_intChars (by decide) bb.2.2.1)) (by decide))
    (not_mem_intChars (by decide) bb.2.2.2)) (by decide)

theorem countSub_word_divLine (W H : Nat) :
    countSub wordClassPat (chars "  <div class=\"ocr_page\" id=\"page_1\" title=\"bbox 0 0 " ++
      natChars W ++ [' '] ++ natChars H ++ chars "\">") = 0 := by
  refine countSub_eq_zero_of_missing 'w' (by decide) ?_
  exact nmApp (nmApp (nmApp (nmApp (by decide) (not_mem_natChars (by decide) W))
    (by decide)) (not_mem_natChars (by decide) H)) (by decide)

theorem sum_word_wordLines (ws : List Word) :
    ∀ wc : Nat, ((wordLinesList wc ws).map (countSub wordClassPat)).sum = ws.length := by
  induction ws with
  | nil => intro wc; rfl
  | cons w rest ih =>
    intro wc
    show ((wordLine wc w :: wordLinesList (wc + 1) rest).map (countSub wordClassPat)).sum = _
    rw [List.map_cons, List.sum_cons, countSub_word_wordLine, ih (wc + 1),
      List.length_cons]
    omega

theorem sum_word_bodyLines (ls : List LineData) :
    ∀ i wc : Nat, ((bodyLines i wc ls).map (countSub wordClassPat)).sum =
      (ls.map (fun l => l.words.length)).sum := by
  induction ls with
  | nil => intro i wc; rfl
  | cons l rest ih =>
    intro i wc
    show ((lineLine i l.bbox :: (wordLinesList wc l.words ++
      (chars "    </span>" :: bodyLines (i + 1) (wc + l.words.length) rest))).map
        (countSub wordClassPat)).sum = _
    rw [List.map_cons, List.sum_cons, countSub_word_lineLine, List.map_append,
      List.sum_append, List.map_cons, List.sum_cons, sum_word_wordLines,
      show countSub wordClassPat (chars "    </span>") = 0 from by decide,
      ih (i + 1) (wc + l.words.length)]
    simp

set_option maxRecDepth 8192 in
theorem word_count_serialized (ds : List Detection) (W H : Nat) :
    countSub wordClassPat (easyocr_to_hocr ds W H) = ds.length := by
  unfold easyocr_to_hocr
  rw [countSub_joinLines wordClassPat (by decide) (by decide)]
  rw [List.map_append, List.map_append, List.sum_append, List.sum_append]
  have hhead : ((headerLines W H).map (countSub wordClassPat)).sum = 0 := by
    unfold headerLines
    simp only [List.map_cons, List.map_nil, List.sum_cons, List.sum_nil]
    rw [countSub_word_divLine W H,
      show countSub wordClassPat (chars "<?xml version=\"1.0\" encoding=\"UTF-8\"?>") = 0
        from by decide,
      show countSub wordClassPat (chars "<!DOCTYPE html PUBLIC \"-//W3C//DTD XHTML 1.0 Transitional//EN\" \"http://www.w3.org/TR/xhtml1/DTD/xhtml1-transitional.dtd\">") = 0
        from by decide,
      show countSub wordClassPat (chars "<html xmlns=\"http://www.w3.org/1999/xhtml\" xml:lang=\"en\" lang=\"en\">") = 0
        from by decide,
      show countSub wordClassPat (chars "<head>") = 0 from by decide,
      show countSub wordClassPat (chars " <meta http-equiv=\"content-type\" content=\"text/html; charset=utf-8\" />") = 0
        from by decide,
      show countSub wordClassPat (chars " <meta name=\"ocr-system\" content=\"easyocr\" />") = 0
        from by decide,
      show countSub wordClassPat (chars " <meta name=\"ocr-capabilities\" content=\"ocr_page ocr_carea ocr_par ocr_line ocrx_word\" />") = 0
        from by decide,
      show countSub wordClassPat (chars "</head>") = 0 from by decide,
      show countSub wordClassPat (chars "<body>") = 0 from by decide]
    rfl
  have hfoot : ((footerLines).map (countSub wordClassPat)).sum = 0 := by decide
  rw [hhead, hfoot, sum_word_bodyLines]
  have hperm := (grouping_flatten_perm ds).length_eq
  rw [List.length_flatten, List.map_map] at hperm
  have hlen : (wordsOf ds).length = ds.length := List.length_map _ _
  rw [hlen] at hperm
  have hfun : (List.length ∘ LineData.words) = fun l : LineData => l.words.length := rfl
  rw [hfun] at hperm
  omega

/-! ## C1: parsing the serializer's output counts every detection -/

/-- **C1**: for every non-empty Detection sequence and any image width
and height, parsing the serializer's output succeeds and reports a
`word_count` equal to the number of input Detections. -/
theorem parse_serialized_word_count (ds : List Detection)
    (image_width image_height : Nat) (h : ds ≠ []) :
    ∃ info, parse_hocr (easyocr_to_hocr ds image_width image_height) = Except.ok info ∧
      info.word_count = ds.length := by
  refine ⟨⟨countSub pageClassPat (easyocr_to_hocr ds image_width image_height),
    countSub wordClassPat (easyocr_to_hocr ds image_width image_height),
    hasSub bboxPat (easyocr_to_hocr ds image_width image_height)⟩, ?_, ?_⟩
  · unfold parse_hocr
    rw [if_pos (xmlCheck_serialized ds image_width image_height)]
  · exact word_count_serialized ds image_width image_height

/-- Witness for C1 at two concrete detections. -/
theorem parse_serialized_word_count_witness :
    ∃ info, parse_hocr (easyocr_to_hocr detsTwoCols 100 50) = Except.ok info ∧
      info.word_count = detsTwoCols.length :=
  parse_serialized_word_count detsTwoCols 100 50 (by simp [detsTwoCols])

/-! ## C7: the empty serialization is valid -/

set_option maxRecDepth 8192 in
theorem countSub_page_divLine (W H : Nat) :
    countSub pageClassPat (chars "  <div class=\"ocr_page\" id=\"page_1\" title=\"bbox 0 0 " ++
      natChars W ++ [' '] ++ natChars H ++ chars "\">") = 1 := by
  have hd : chars "  <div class=\"ocr_page\" id=\"page_1\" title=\"bbox 0 0 " ++
      natChars W ++ [' '] ++ natChars H ++ chars "\">" =
      chars "  <div" ++ ' ' :: (chars "class=\"ocr_page\"" ++ ' ' ::
        (chars "id=\"page_1\"" ++ ' ' :: (chars "title=\"bbox" ++ ' ' ::
          (chars "0" ++ ' ' :: (chars "0" ++ ' ' ::
            (natChars W ++ ' ' :: (natChars H ++ ['"', '>']))))))) := by
    rw [show chars "  <div class=\"ocr_page\" id=\"page_1\" title=\"bbox 0 0 " =
      chars "  <div" ++ ' ' :: (chars "class=\"ocr_page\"" ++ ' ' ::
        (chars "id=\"page_1\"" ++ ' ' :: (chars "title=\"bbox" ++ ' ' ::
          (chars "0" ++ ' ' :: (chars "0" ++ [' ']))))) from by decide,
      show chars "\">" = ['"', '>'] from by decide]
    simp [List.append_assoc]
  rw [hd]
  have hp0 : pageClassPat ≠ [] := by decide
  have hsp : ' ' ∉ pageClassPat := by decide
  simp only [countSub_append_cons pageClassPat hp0 ' ' hsp]
  simp only [show countSub pageClassPat (chars "  <div") = 0 from by decide,
    show countSub pageClassPat (chars "class=\"ocr_page\"") = 1 from by decide,
    show countSub pageClassPat (chars "id=\"page_1\"") = 0 from by decide,
    show countSub pageClassPat (chars "title=\"bbox") = 0 from by decide,
    show countSub pageClassPat (chars "0") = 0 from by decide]
  rw [countSub_eq_zero_of_missing '"' (by decide) (not_mem_natChars (by decide) W)]
  rw [countSub_eq_zero_of_count_lt '"' ?hcnt]
  case hcnt =>
    have h1 : (natChars H).count '"' = 0 :=
      List.count_eq_zero.2 (not_mem_natChars (by decide) H)
    simp only [List.count_append, h1]
    decide

set_option maxRecDepth 8192 in
theorem page_count_header (W H : Nat) :
    ((headerLines W H).map (countSub pageClassPat)).sum = 1 := by
  unfold headerLines
  simp only [List.map_cons, List.map_nil, List.sum_cons, List.sum_nil]
  rw [countSub_page_divLine W H]
  simp only [show countSub pageClassPat (chars "<?xml version=\"1.0\" encoding=\"UTF-8\"?>") = 0
      from by decide,
    show countSub pageClassPat (chars "<!DOCTYPE html PUBLIC \"-//W3C//DTD XHTML 1.0 Transitional//EN\" \"http://www.w3.org/TR/xhtml1/DTD/xhtml1-transitional.dtd\">") = 0
      from by decide,
    show countSub pageClassPat (chars "<html xmlns=\"http://www.w3.org/1999/xhtml\" xml:lang=\"en\" lang=\"en\">") = 0
      from by decide,
    show countSub pageClassPat (chars "<head>") = 0 from by decide,
    show countSub pageClassPat (chars " <meta http-equiv=\"content-type\" content=\"text/html; charset=utf-8\" />") = 0
      from by decide,
    show countSub pageClassPat (chars " <meta name=\"ocr-system\" content=\"easyocr\" />") = 0
      from by decide,
    show countSub pageClassPat (chars " <meta name=\"ocr-capabilities\" content=\"ocr_page ocr_carea ocr_par ocr_line ocrx_word\" />") = 0
      from by decide,
    show countSub pageClassPat (chars "</head>") = 0 from by decide,
    show countSub pageClassPat (chars "<body>") = 0 from by decide]
  rfl

theorem page_count_serialized_empty (W H : Nat) :
    countSub pageClassPat (easyocr_to_hocr [] W H) = 1 := by
  unfold easyocr_to_hocr
  rw [show bodyLines 1 1 (group_easyocr_words_into_lines []) = [] from rfl,
    List.append_nil]
  rw [countSub_joinLines pageClassPat (by decide) (by decide), List.map_append,
    List.sum_append, page_count_header W H,
    show ((footerLines).map (countSub pageClassPat)).sum = 0 from by decide]

theorem countSub_le_preJoin_of_mem (p : List Char) {l : List Char}
    {ls : List (List Char)} (hmem : l ∈ ls) :
    countSub p l ≤ countSub p (preJoin ls) := by
  induction ls with
  | nil => simp at hmem
  | cons l2 rest ih =>
    rw [preJoin_cons]
    rcases List.mem_cons.1 hmem with rfl | h2
    · exact le_trans (countSub_le_append_left p l (preJoin rest)) (countSub_le_cons _ _ _)
    · exact le_trans (le_trans (ih h2) (countSub_le_append_right p l2 (preJoin rest)))
        (countSub_le_cons _ _ _)

theorem hasSub_bbox_serialized (ds : List Detection) (W H : Nat) :
    hasSub bboxPat (easyocr_to_hocr ds W H) = true := by
  apply hasSub_of_countSub_pos
  unfold easyocr_to_hocr
  have hshape : headerLines W H ++ bodyLines 1 1 (group_easyocr_words_into_lines ds) ++
      footerLines =
      chars "<?xml version=\"1.0\" encoding=\"UTF-8\"?>" ::
        (([chars "<!DOCTYPE html PUBLIC \"-//W3C//DTD XHTML 1.0 Transitional//EN\" \"http://www.w3.org/TR/xhtml1/DTD/xhtml1-transitional.dtd\">",
           chars "<html xmlns=\"http://www.w3.org/1999/xhtml\" xml:lang=\"en\" lang=\"en\">",
           chars "<head>",
           chars " <meta http-equiv=\"content-type\" content=\"text/html; charset=utf-8\" />",
           chars " <meta name=\"ocr-system\" content=\"easyocr\" />",
           chars " <meta name=\"ocr-capabilities\" content=\"ocr_page ocr_carea ocr_par ocr_line ocrx_word\" />",
           chars "</head>",
           chars "<body>",
           chars "  <div class=\"ocr_page\" id=\"page_1\" title=\"bbox 0 0 " ++
             natChars W ++ [' '] ++ natChars H ++ chars "\">"] ++
          bodyLines 1 1 (group_easyocr_words_into_lines ds)) ++ footerLines) := rfl
  rw [hshape, joinLines_eq]
  have hdiv : 0 < countSub bboxPat
      (chars "  <div class=\"ocr_page\" id=\"page_1\" title=\"bbox 0 0 " ++
        natChars W ++ [' '] ++ natChars H ++ chars "\">") := by
    have h1 : countSub bboxPat
        (chars "  <div class=\"ocr_page\" id=\"page_1\" title=\"bbox 0 0 ") = 1 := by decide
    have h2 := countSub_le_append_left bboxPat
      (chars "  <div class=\"ocr_page\" id=\"page_1\" title=\"bbox 0 0 ") (natChars W)
    have h3 := countSub_le_append_left bboxPat
      (chars "  <div class=\"ocr_page\" id=\"page_1\" title=\"bbox 0 0 " ++ natChars W) [' ']
    have h4 := countSub_le_append_left bboxPat
      (chars "  <div class=\"ocr_page\" id=\"page_1\" title=\"bbox 0 0 " ++ natChars W ++ [' '])
      (natChars H)
    have h5 := countSub_le_append_left bboxPat
      (chars "  <div class=\"ocr_page\" id=\"page_1\" title=\"bbox 0 0 " ++ natChars W ++ [' '] ++
        natChars H) (chars "\">")
    omega
  have hmem : (chars "  <div class=\"ocr_page\" id=\"page_1\" title=\"bbox 0 0 " ++
      natChars W ++ [' '] ++ natChars H ++ chars "\">") ∈
      ([chars "<!DOCTYPE html PUBLIC \"-//W3C//DTD XHTML 1.0 Transitional//EN\" \"http://www.w3.org/TR/xhtml1/DTD/xhtml1-transitional.dtd\">",
        chars "<html xmlns=\"http://www.w3.org/1999/xhtml\" xml:lang=\"en\" lang=\"en\">",
        chars "<head>",
        chars " <meta http-equiv=\"content-type\" content=\"text/html; charset=utf-8\" />",
        chars " <meta name=\"ocr-system\" content=\"easyocr\" />",
        chars " <meta name=\"ocr-capabilities\" content=\"ocr_page ocr_carea ocr_par ocr_line ocrx_word\" />",
        chars "</head>",
        chars "<body>",
        chars "  <div class=\"ocr_page\" id=\"page_1\" title=\"bbox 0 0 " ++
          natChars W ++ [' '] ++ natChars H ++ chars "\">"] ++
        bodyLines 1 1 (group_easyocr_words_into_lines ds)) ++ footerLines := by
    refine List.mem_append_left _ (List.mem_append_left _ ?_)
    simp
  have hle := countSub_le_preJoin_of_mem bboxPat hmem
  have hle2 := countSub_le_append_right bboxPat
    (chars "<?xml version=\"1.0\" encoding=\"UTF-8\"?>")
    (preJoin (([chars "<!DOCTYPE html PUBLIC \"-//W3C//DTD XHTML 1.0 Transitional//EN\" \"http://www.w3.org/TR/xhtml1/DTD/xhtml1-transitional.dtd\">",
        chars "<html xmlns=\"http://www.w3.org/1999/xhtml\" xml:lang=\"en\" lang=\"en\">",
        chars "<head>",
        chars " <meta http-equiv=\"content-type\" content=\"text/html; charset=utf-8\" />",
        chars " <meta name=\"ocr-system\" content=\"easyocr\" />",
        chars " <meta name=\"ocr-capabilities\" content=\"ocr_page ocr_carea ocr_par ocr_line ocrx_word\" />",
        chars "</head>",
        chars "<body>",
        chars "  <div class=\"ocr_page\" id=\"page_1\" title=\"bbox 0 0 " ++
          natChars W ++ [' '] ++ natChars H ++ chars "\">"] ++
        bodyLines 1 1 (group_easyocr_words_into_lines ds)) ++ footerLines))
  omega

/-- **C7**: for every image width and height, serializing an empty
Detection sequence yields a document that parses successfully with
`page_count` 1, `word_count` 0 and `has_bounding_boxes` true (the page
element with its bbox title is emitted even with zero lines), and
`validate_hocr` accepts it without error. -/
theorem empty_serialization_valid (image_width image_height : Nat) :
    parse_hocr (easyocr_to_hocr [] image_width image_height) =
      Except.ok ⟨1, 0, true⟩ ∧
    validate_hocr (easyocr_to_hocr [] image_width image_height) = Except.ok () := by
  have hparse : parse_hocr (easyocr_to_hocr [] image_width image_height) =
      Except.ok ⟨1, 0, true⟩ := by
    unfold parse_hocr
    rw [if_pos (xmlCheck_serialized [] image_width image_height)]
    rw [show countSub pageClassPat (easyocr_to_hocr [] image_width image_height) = 1 from
        page_count_serialized_empty image_width image_height,
      show countSub wordClassPat (easyocr_to_hocr [] image_width image_height) = 0 from
        word_count_serialized [] image_width image_height,
      hasSub_bbox_serialized [] image_width image_height]
  refine ⟨hparse, ?_⟩
  unfold validate_hocr
  rw [hparse]
  rfl
